import Mathlib

/-!
Verification of the quantization / encode / decode core of the
mage-arena-image-to-flag repository (src/main.py, src/color_algorithms.py).

Conventions of the shallow embedding:
* 8-bit channel values are `Fin 256` (numpy `uint8`); numpy's wrapping
  subtraction on `uint8` arrays is modelled exactly by `u8sub`.
* Python floats are modelled as exact rationals `ℚ`.  All comparisons and
  truncations performed by the source on the values reachable in these
  claims give the same results for IEEE doubles and for exact rationals
  (the two-decimal tokens and the small quotients `u/6`, `1 - v/5` are far
  from any rounding boundary), and `sqrt` is strictly monotone, so the
  strict `<` comparisons the scanner performs on `cv.norm` values coincide
  with comparisons on the squared norms used here.
* File-writing side effects of the encoder are modelled by an explicit
  effect list; image-file I/O of the external caller is out of scope.
-/

/-- One pixel value: three 8-bit channels in storage order.  Images loaded by
`cv.imread` store BGR; palettes (after `cv.cvtColor(..., COLOR_BGR2RGB)`)
store RGB. -/
structure Color where
  c0 : Fin 256
  c1 : Fin 256
  c2 : Fin 256
deriving DecidableEq

/-- `(pixel_colour[2], pixel_colour[1], pixel_colour[0])`: reverse the stored
channel order (BGR → RGB and back). -/
def reverseColour (c : Color) : Color := ⟨c.c2, c.c1, c.c0⟩

/-- numpy `uint8` subtraction `a - b`: wraps modulo 256. -/
def u8sub (a b : Fin 256) : Nat := ((((a.val : Int) - (b.val : Int)) % 256)).toNat

/-- The squared value of `cv.norm(np.array(pixel_rgb) - np.array(texture_colour))`
in `find_closest_colour_rgb`: both operands are `uint8` arrays, so the
difference wraps modulo 256 before being squared and summed. -/
def rgbDistSq (p c : Color) : Nat :=
  u8sub p.c0 c.c0 ^ 2 + u8sub p.c1 c.c1 ^ 2 + u8sub p.c2 c.c2 ^ 2

/-- The 7×6 palette (`texture_resized`): `tex v u` is the RGB colour of
column `u`, row `v`. -/
abbrev Palette := Nat → Nat → Color

/-- Cell scan order of every `find_closest_colour_*` function:
`for v in range(6): for u in range(7)`, recorded as `(u, v)` pairs. -/
def scanOrder : List (Nat × Nat) :=
  (List.range 6).flatMap (fun v => (List.range 7).map (fun u => (u, v)))

/-- One loop iteration of the scan: state is `(best_u_v, min_dist)` with
`none` standing for the initial `float('inf')`; the update fires only on a
strict `<`. -/
def scanStep (d : Nat × Nat → ℚ) (st : (Nat × Nat) × Option ℚ) (p : Nat × Nat) :
    (Nat × Nat) × Option ℚ :=
  match st.2 with
  | none => (p, some (d p))
  | some m => if d p < m then (p, some (d p)) else st

/-- The 42-cell scan shared by all `find_closest_colour_*` functions:
start from `best_u, best_v = 0, 0` and `min_dist = float('inf')` and fold the
update over the scan order. -/
def findClosestGeneric (d : Nat × Nat → ℚ) : Nat × Nat :=
  (scanOrder.foldl (scanStep d) ((0, 0), none)).1

/-- Shared shape of the seven algorithm functions: convert the BGR pixel to
RGB, then scan all 42 palette cells with the metric's distance. -/
def mkAlg (dist : Color → Color → ℚ) : Color → Palette → Nat × Nat :=
  fun pixel_colour texture_resized =>
    findClosestGeneric (fun p => dist (reverseColour pixel_colour) (texture_resized p.2 p.1))

/-- `find_closest_colour_rgb` (src/color_algorithms.py, lines 35–50), with the
squared wrapped distance in place of its square root (strictly monotone, so
the scan result is unchanged). -/
def find_closest_colour_rgb : Color → Palette → Nat × Nat :=
  mkAlg (fun prgb c => (rgbDistSq prgb c : ℚ))

/-- `np.clip(x, lo, hi)` for `lo ≤ hi`. -/
def clipQ (x lo hi : ℚ) : ℚ := max lo (min x hi)

/-- Round a rational to the nearest integer, ties to even: the rounding used
by Python's `f"{x:.2f}"` (none of the values reachable here is a tie). -/
def roundHalfEven (q : ℚ) : Int :=
  if q - (⌊q⌋ : ℚ) < 1 / 2 then ⌊q⌋
  else if (1 : ℚ) / 2 < q - (⌊q⌋ : ℚ) then ⌊q⌋ + 1
  else if ⌊q⌋ % 2 = 0 then ⌊q⌋ else ⌊q⌋ + 1

/-- Two-digit zero padding for the fractional part. -/
def pad2 (n : Nat) : String := if n < 10 then "0" ++ toString n else toString n

/-- `f"{q:.2f}"` for the non-negative values produced by the encoder. -/
def fmt2 (q : ℚ) : String :=
  let n := (roundHalfEven (100 * q)).toNat
  toString (n / 100) ++ "." ++ pad2 (n % 100)

/-- The per-pixel body of `serialize_image_to_uv` (src/main.py, lines 62–67):
clip the cell index, normalize to texture-UV space, clip into `[0.01, 0.99]`,
format both coordinates to two decimals and join them with a colon. -/
def encodePixelToken (uv : Nat × Nat) : String :=
  let bu : Nat := min uv.1 6
  let bv : Nat := min uv.2 5
  let un := clipQ ((bu : ℚ) / 6) (1 / 100) (99 / 100)
  let vn := clipQ (1 - (bv : ℚ) / 5) (1 / 100) (99 / 100)
  fmt2 un ++ ":" ++ fmt2 vn

/-- The `serialized_list` built by `serialize_image_to_uv`
(src/main.py, lines 51–67): `for i in range(width): for j in range(height-1, -1, -1)`
with `width = 100`, `height = 66`, appending the token of pixel
`source_image[j, i]`. -/
def serializedList (img : Nat → Nat → Color) (tex : Palette)
    (alg : Color → Palette → Nat × Nat) : List String :=
  (List.range 100).flatMap (fun i =>
    ((List.range 66).reverse).map (fun j => encodePixelToken (alg (img j i) tex)))

/-- A file-system effect performed by the source. -/
inductive FileEffect
  | write (path : String)
deriving DecidableEq

/-- `save_resized_texture` (src/main.py, lines 10–37) writes one image file,
`resized_texture.png` by default. -/
def save_resized_texture_effects : List FileEffect :=
  [FileEffect.write "resized_texture.png"]

/-- Python's `sep.join(list)` for a one-character separator, on `List Char`. -/
def joinSep (sep : Char) : List (List Char) → List Char
  | [] => []
  | [x] => x
  | x :: y :: t => x ++ sep :: joinSep sep (y :: t)

/-- Python's `",".join(xs)`. -/
def pyJoin (sep : Char) (xs : List String) : String :=
  ⟨joinSep sep (xs.map String.data)⟩

/-- Python's `s.split(sep)` for a one-character separator: splits at every
occurrence, keeping empty chunks; always returns at least one chunk. -/
def splitChar (sep : Char) : List Char → List (List Char)
  | [] => [[]]
  | c :: rest =>
    let r := splitChar sep rest
    if c = sep then [] :: r
    else
      match r with
      | [] => [[c]]
      | h :: t => (c :: h) :: t

/-- Python's `s.split(sep)` on `String`. -/
def pySplit (s : String) (sep : Char) : List String :=
  (splitChar sep s.data).map (fun l => ⟨l⟩)

/-- `serialize_image_to_uv` (src/main.py, lines 39–69) for an image already at
the fixed 100×66 shape (the claims quantify over such grids, so the
`cv.resize` branch at line 44 is not taken) and an already extracted 7×6 RGB
palette.  Returns the comma-joined stream together with the file effects the
call performs: line 49 invokes `save_resized_texture(texture)`. -/
def serialize_image_to_uv (img : Nat → Nat → Color) (tex : Palette)
    (alg : Color → Palette → Nat × Nat) : String × List FileEffect :=
  (pyJoin ',' (serializedList img tex alg), save_resized_texture_effects)

/-- Digits-to-number, `foldl`-style. -/
def digitsToNat (l : List Char) : Nat :=
  l.foldl (fun a c => a * 10 + (c.toNat - 48)) 0

/-- Unsigned Python float literal: `digits`, `digits.`, `.digits` or
`digits.digits`. -/
def pyUFloat (l : List Char) : Option ℚ :=
  match splitChar '.' l with
  | [ip] => if ip ≠ [] ∧ ip.all Char.isDigit then some ((digitsToNat ip : ℚ)) else none
  | [ip, fp] =>
    if (ip ++ fp) ≠ [] ∧ ip.all Char.isDigit ∧ fp.all Char.isDigit then
      some ((digitsToNat ip : ℚ) + (digitsToNat fp : ℚ) / (10 : ℚ) ^ fp.length)
    else none
  | _ => none

/-- Strip one optional leading sign; returns (isNegative, rest). -/
def pySignSplit : List Char → Bool × List Char
  | '+' :: rest => (false, rest)
  | '-' :: rest => (true, rest)
  | l => (false, l)

/-- Signed integer exponent part of a float literal. -/
def pyExp (l : List Char) : Option Int :=
  let p := pySignSplit l
  if p.2 ≠ [] ∧ p.2.all Char.isDigit then
    some (if p.1 then -(digitsToNat p.2 : Int) else (digitsToNat p.2 : Int))
  else none

/-- Python's `float(s)` on decimal literals, as an exact rational:
optional sign, mantissa, optional `e`/`E` exponent.  (The exotic inputs
`float` also accepts — whitespace padding, `inf`, `nan`, digit
underscores — are not modelled; no claim depends on them.) -/
def pyFloatQ (s : String) : Option ℚ :=
  let l := s.data.map Char.toLower
  let p := pySignSplit l
  match splitChar 'e' p.2 with
  | [mant] => (pyUFloat mant).map (fun q => if p.1 then -q else q)
  | [mant, ex] =>
    match pyUFloat mant, pyExp ex with
    | some q, some e => some ((if p.1 then -q else q) * (10 : ℚ) ^ e)
    | _, _ => none
  | _ => none

/-- Decode-side parsing of one stream entry (src/main.py, lines 91–94):
`array2 = uv_pair.split(':')` then `float(array2[0])`, `float(array2[1])`.
`none` models the `IndexError`/`ValueError` the source raises. -/
def parsePair (t : String) : Option (ℚ × ℚ) :=
  match pySplit t ':' with
  | a :: b :: _ =>
    match pyFloatQ a, pyFloatQ b with
    | some x, some y => some (x, y)
    | _, _ => none
  | _ => none

/-- Python's `int(x)` on a float: truncation toward zero. -/
def pyInt (q : ℚ) : Int := if 0 ≤ q then ⌊q⌋ else -⌊-q⌋

/-- Lines 96–103 of src/main.py: map a parsed `(x, y)` pair back to a palette
cell, clamp it into the grid, look the colour up and store it in BGR order. -/
def decodeColour (tex : Palette) (x y : ℚ) : Color :=
  let tu := pyInt (x * 7)
  let tv := pyInt ((1 - y) * 6)
  let tu2 := (max 0 (min 6 tu)).toNat
  let tv2 := (max 0 (min 5 tv)).toNat
  reverseColour (tex tv2 tu2)

/-- The preview image: 66 rows of 100 BGR pixels. -/
abbrev Grid := List (List Color)

/-- The all-zero colour (black, both as BGR and RGB). -/
def blackColour : Color := ⟨0, 0, 0⟩

/-- `np.zeros((66, 100, 3), dtype=np.uint8)`. -/
def initGrid : Grid := List.replicate 66 (List.replicate 100 blackColour)

/-- `preview_img[j, i] = colour`. -/
def setGrid (g : Grid) (j i : Nat) (c : Color) : Grid :=
  g.set j ((g.getD j []).set i c)

/-- Read pixel `[j, i]` of a grid (out-of-range reads default to black; the
source never performs them). -/
def gridGet (g : Grid) (j i : Nat) : Color :=
  (g.getD j []).getD i blackColour

/-- The visit order of the decode loops (src/main.py, lines 86–87):
`for i in range(width): for j in range(height)`, as `(i, j)` pairs. -/
def positionsDec : List (Nat × Nat) :=
  (List.range 100).flatMap (fun i => (List.range 66).map (fun j => (i, j)))

/-- The decode loop body (src/main.py, lines 86–107): positions are visited in
order with a running counter `num`; once `num` reaches the number of pairs the
remaining positions are skipped (the source's `break` of the inner loop),
and a pair that fails to parse aborts the whole decode (`none`). -/
def decodeLoop (toks : List String) (tex : Palette) :
    List (Nat × Nat) → Nat → Grid → Option Grid
  | [], _, g => some g
  | (i, j) :: rest, num, g =>
    if h : num < toks.length then
      match parsePair toks[num] with
      | none => none
      | some (x, y) => decodeLoop toks tex rest (num + 1) (setGrid g j i (decodeColour tex x y))
    else decodeLoop toks tex rest num g

/-- The colour a stream entry decodes to (black when it does not parse; only
used where parsing is known to succeed). -/
def colourOfTokD (tex : Palette) (t : String) : Color :=
  match parsePair t with
  | some (x, y) => decodeColour tex x y
  | none => blackColour

/-- `create_uv_preview_image` (src/main.py, lines 71–112) with an already
extracted 7×6 RGB palette: split the stream on commas, fill the 66×100 grid,
then flip it vertically (`cv.flip(preview_img, 0)` reverses the row order).
The trailing `cv.imwrite`/`print` effects carry no information about the
returned grid and are not modelled. -/
def create_uv_preview_image (serialized_data : String) (tex : Palette) : Option Grid :=
  (decodeLoop (pySplit serialized_data ',') tex positionsDec 0 initGrid).map List.reverse

/-- Spec-side definition (§4.3 of the spec): the earliest-scanned cell among
those of minimal distance. -/
def firstMinimal (d : Nat × Nat → ℚ) : Nat × Nat :=
  (scanOrder.find? (fun p => decide (∀ q ∈ scanOrder, d p ≤ d q))).getD (0, 0)

/-- Spec-side definition (§4.2 of the spec): the squared Euclidean distance
over the signed integer channel differences. -/
def euclidSqSpec (p c : Color) : Int :=
  ((p.c0.val : Int) - c.c0.val) ^ 2 + ((p.c1.val : Int) - c.c1.val) ^ 2
    + ((p.c2.val : Int) - c.c2.val) ^ 2

/-- Spec-side definition (§4.4 of the spec): a stream token is two two-decimal
fixed-point numbers below 1 joined by a colon. -/
def isTwoDecimalToken (s : String) : Bool :=
  match s.data with
  | ['0', '.', a, b, ':', '0', '.', c, d] => a.isDigit && b.isDigit && c.isDigit && d.isDigit
  | _ => false

/-- The tail of the fused scan loop, after the first iteration (which always
fires because every distance is below `float('inf')`). -/
def scanGo (d : Nat × Nat → ℚ) : List (Nat × Nat) → (Nat × Nat) → ℚ → Nat × Nat
  | [], best, _ => best
  | p :: rest, best, m =>
    if d p < m then scanGo d rest p (d p) else scanGo d rest best m

/-- `scanOrder` without its first cell `(0, 0)`. -/
def scanOrderTail : List (Nat × Nat) := scanOrder.tail

/-- The decode loop under the assumption that every consumed entry parses:
a total function computing the filled grid. -/
def foldFill (toks : List String) (tex : Palette) :
    List (Nat × Nat) → Nat → Grid → Grid
  | [], _, g => g
  | (i, j) :: rest, num, g =>
    if num < toks.length then
      foldFill toks tex rest (num + 1) (setGrid g j i (colourOfTokD tex (toks.getD num "")))
    else foldFill toks tex rest num g

/-- Shape invariant of the preview grid: 66 rows of 100 pixels. -/
def gridShape (g : Grid) : Prop :=
  g.length = 66 ∧ ∀ j, j < 66 → (g.getD j []).length = 100

/-- The palette of the spec's concrete scenario: cell `(0,0)` pure red,
all other cells pure black (RGB order). -/
def redBlackTex : Palette := fun v u => if v = 0 ∧ u = 0 then ⟨255, 0, 0⟩ else ⟨0, 0, 0⟩

/-- A pure-red pixel as the encoder reads it (BGR storage order). -/
def pureRedBGR : Color := ⟨0, 0, 255⟩

/-- An all-black palette (used as a concrete instance). -/
def constTex : Palette := fun _ _ => blackColour

/-- An all-black 100×66 source image (used as a concrete instance). -/
def constImg : Nat → Nat → Color := fun _ _ => blackColour

/-- A palette whose 42 cells are pairwise distinct colours. -/
def distinctTex : Palette := fun v u => ⟨⟨u % 256, by omega⟩, ⟨v % 256, by omega⟩, 0⟩

/-- A well-formed stream entry. -/
def goodTok : String := "0.01:0.99"

/-- 6601 well-formed entries: one more than the decoder can consume. -/
def manyGood : List String := List.replicate 6601 goodTok

/-- 6600 well-formed entries followed by a malformed one. -/
def overflowBad : List String := List.replicate 6600 goodTok ++ ["x"]

/-- The seven `u` coordinate strings the encoder can emit
(`f"{clip(u/6, 0.01, 0.99):.2f}"` for `u = 0..6`). -/
def uTokStr : Nat → String :=
  fun u => ["0.01", "0.17", "0.33", "0.50", "0.67", "0.83", "0.99"].getD u ""

/-- The six `v` coordinate strings the encoder can emit
(`f"{clip(1 - v/5, 0.01, 0.99):.2f}"` for `v = 0..5`). -/
def vTokStr : Nat → String :=
  fun v => ["0.99", "0.80", "0.60", "0.40", "0.20", "0.01"].getD v ""

/-- The rational values `float` recovers from the `u` coordinate strings. -/
def uTokQ : Nat → ℚ :=
  fun u => [1/100, 17/100, 33/100, 1/2, 67/100, 83/100, 99/100].getD u 0

/-- The rational values `float` recovers from the `v` coordinate strings. -/
def vTokQ : Nat → ℚ :=
  fun v => [99/100, 4/5, 3/5, 2/5, 1/5, 1/100].getD v 0

/-- The decode loop (src/main.py, lines 86–107) with the per-entry colour
computation abstracted into a parameter `C`: `C t = none` models an
exception raised while processing entry `t` (the `IndexError` of a colon
split with fewer than two fields, a `ValueError` of `float`, or the
`OverflowError` of `int` on an infinite value), which aborts the whole
decode; `C t = some c` is the colour stored for the entry.  Everything
else — the visit order, the counter, the break — is the loop of the
source; `decodeLoop` is the instance of this loop at the file's rational
parse model (`entryColour`, see `decodeLoop_eq_decodeLoopC`). -/
def decodeLoopC (toks : List String) (C : String → Option Color) :
    List (Nat × Nat) → Nat → Grid → Option Grid
  | [], _, g => some g
  | (i, j) :: rest, num, g =>
    if h : num < toks.length then
      match C toks[num] with
      | none => none
      | some c => decodeLoopC toks C rest (num + 1) (setGrid g j i c)
    else decodeLoopC toks C rest num g

/-- `create_uv_preview_image` (src/main.py, lines 71–112) with the
per-entry colour computation abstracted: split the stream on commas, run
the decode loop, flip the grid vertically.  Everything outside the
per-entry computation is fixed. -/
def create_uv_preview_imageC (serialized_data : String)
    (C : String → Option Color) : Option Grid :=
  (decodeLoopC (pySplit serialized_data ',') C positionsDec 0 initGrid).map List.reverse

/-- This file's rational model of the per-entry colour computation
(src/main.py, lines 91–105): parse the entry (`parsePair`), then map the
pair to a palette colour (`decodeColour`). -/
def entryColour (tex : Palette) (t : String) : Option Color :=
  (parsePair t).map (fun xy => decodeColour tex xy.1 xy.2)

/-- The decode loop under the assumption that every consumed entry's
colour computation succeeds, for a total colour function `K`: the total
analogue of `decodeLoopC`, computing the filled grid. -/
def foldFillK (toks : List String) (K : String → Color) :
    List (Nat × Nat) → Nat → Grid → Grid
  | [], _, g => g
  | (i, j) :: rest, num, g =>
    if num < toks.length then
      foldFillK toks K rest (num + 1) (setGrid g j i (K (toks.getD num "")))
    else foldFillK toks K rest num g

/-- The overflow threshold of IEEE-754 double rounding (round to nearest,
ties to even): a value of magnitude at least `2^1024 - 2^970` rounds to
infinity, so Python's `float('1e400')` is `inf`. -/
def dblOverflow : ℚ := 2 ^ 1024 - 2 ^ 970

/-- The per-entry colour computation with the overflow path of `float`
restored (src/main.py, lines 91–105): when the product `x * 7` (resp.
`(1.0 - y) * 6`) reaches the double overflow threshold — in particular
whenever a coordinate's literal itself overflowed to `inf` — the `int`
conversion on line 96 (resp. 97) raises `OverflowError` and the entry
aborts the decode.  Finite values are kept as exact rationals, as
everywhere in this file. -/
def entryColourOv (tex : Palette) (t : String) : Option Color :=
  match parsePair t with
  | none => none
  | some (x, y) =>
    if dblOverflow ≤ |x * 7| then none
    else if dblOverflow ≤ |(1 - y) * 6| then none
    else some (decodeColour tex x y)

/-- `create_uv_preview_image` at the overflow-aware per-entry
computation. -/
def create_uv_preview_imageOv (serialized_data : String) (tex : Palette) : Option Grid :=
  create_uv_preview_imageC serialized_data (entryColourOv tex)

/-! ### String split / join lemmas -/

lemma splitChar_ne_nil (sep : Char) (l : List Char) : splitChar sep l ≠ [] := by
  cases l with
  | nil => simp [splitChar]
  | cons c rest =>
    simp only [splitChar]
    split
    · simp
    · split <;> simp

lemma splitChar_cons_sep (sep : Char) (l : List Char) :
    splitChar sep (sep :: l) = [] :: splitChar sep l := by
  simp [splitChar]

lemma splitChar_no_sep (sep : Char) (x : List Char) (hx : sep ∉ x) :
    splitChar sep x = [x] := by
  induction x with
  | nil => simp [splitChar]
  | cons c rest ih =>
    have hc : ¬(c = sep) := by
      intro h; exact hx (by simp [h])
    have hrest : sep ∉ rest := fun h => hx (List.mem_cons_of_mem _ h)
    simp only [splitChar, if_neg hc, ih hrest]

lemma splitChar_append_sep (sep : Char) (x r : List Char) (hx : sep ∉ x) :
    splitChar sep (x ++ sep :: r) = x :: splitChar sep r := by
  induction x with
  | nil => simpa using splitChar_cons_sep sep r
  | cons c rest ih =>
    have hc : ¬(c = sep) := by
      intro h; exact hx (by simp [h])
    have hrest : sep ∉ rest := fun h => hx (List.mem_cons_of_mem _ h)
    simp only [List.cons_append, splitChar, if_neg hc]
    have hrw : rest.append (sep :: r) = rest ++ sep :: r := rfl
    rw [hrw, ih hrest]

lemma splitChar_joinSep (sep : Char) :
    ∀ chunks : List (List Char), chunks ≠ [] → (∀ ch ∈ chunks, sep ∉ ch) →
      splitChar sep (joinSep sep chunks) = chunks
  | [], h, _ => absurd rfl h
  | [x], _, hch => by
    simp only [joinSep]
    exact splitChar_no_sep sep x (hch x (by simp))
  | x :: y :: t, _, hch => by
    simp only [joinSep]
    rw [splitChar_append_sep sep x _ (hch x (by simp))]
    rw [splitChar_joinSep sep (y :: t) (by simp) (fun ch h => hch ch (List.mem_cons_of_mem _ h))]

lemma pySplit_pyJoin (sep : Char) (toks : List String) (hne : toks ≠ [])
    (hsep : ∀ t ∈ toks, sep ∉ t.data) :
    pySplit (pyJoin sep toks) sep = toks := by
  unfold pySplit pyJoin
  have hdata : (String.mk (joinSep sep (toks.map String.data))).data
      = joinSep sep (toks.map String.data) := rfl
  rw [hdata, splitChar_joinSep sep (toks.map String.data) (by simpa using hne)
    (by intro ch hch
        rcases List.mem_map.mp hch with ⟨t, ht, rfl⟩
        exact hsep t ht)]
  rw [List.map_map]
  have hid : ((fun l => (⟨l⟩ : String)) ∘ String.data) = id := by
    funext t; rfl
  rw [hid, List.map_id]

lemma splitChar_chunks_no_sep (sep : Char) :
    ∀ l : List Char, ∀ ch ∈ splitChar sep l, sep ∉ ch := by
  intro l
  induction l with
  | nil =>
    intro ch hch
    simp only [splitChar, List.mem_singleton] at hch
    simp [hch]
  | cons c rest ih =>
    intro ch hch
    simp only [splitChar] at hch
    by_cases hc : c = sep
    · rw [if_pos hc] at hch
      rcases List.mem_cons.mp hch with h | h
      · simp [h]
      · exact ih ch h
    · rw [if_neg hc] at hch
      rcases he : splitChar sep rest with _ | ⟨h0, t0⟩
      · exact absurd he (splitChar_ne_nil sep rest)
      · rw [he] at hch
        rcases List.mem_cons.mp hch with h | h
        · subst h
          intro hmem
          rcases List.mem_cons.mp hmem with h1 | h1
          · exact hc h1.symm
          · exact ih h0 (by rw [he]; exact List.mem_cons_self _ _) h1
        · exact ih ch (by rw [he]; exact List.mem_cons_of_mem _ h)

lemma pySplit_no_sep (s : String) (sep : Char) : ∀ t ∈ pySplit s sep, sep ∉ t.data := by
  intro t ht
  rcases List.mem_map.mp ht with ⟨ch, hch, rfl⟩
  exact splitChar_chunks_no_sep sep s.data ch hch

/-! ### Indexing lemmas for nested `range` loops -/

lemma flatMap_range_length {α : Type} (f : Nat → List α) (W H : Nat)
    (hf : ∀ i, (f i).length = H) :
    ((List.range W).flatMap f).length = W * H := by
  rw [List.length_flatMap]
  have hmap : (List.range W).map (List.length ∘ f) = List.replicate W H := by
    have : ∀ b ∈ (List.range W).map (List.length ∘ f), b = H := by
      intro b hb
      rcases List.mem_map.mp hb with ⟨i, _, rfl⟩
      exact hf i
    have hlen := List.eq_replicate_of_mem this
    simpa using hlen
  rw [hmap, List.sum_replicate, smul_eq_mul]

lemma flatMap_range_getElem {α : Type} (f : Nat → List α) (H : Nat)
    (hf : ∀ i, (f i).length = H) :
    ∀ (W i j : Nat), i < W → j < H →
      ((List.range W).flatMap f)[i * H + j]? = (f i)[j]? := by
  intro W
  induction W with
  | zero => intro i j hi; omega
  | succ W ih =>
    intro i j hi hj
    rw [List.range_succ, List.flatMap_append]
    rcases Nat.lt_or_ge i W with hiW | hiW
    · have hlt : i * H + j < ((List.range W).flatMap f).length := by
        rw [flatMap_range_length f W H hf]
        calc i * H + j < i * H + H := by omega
          _ = (i + 1) * H := by ring
          _ ≤ W * H := Nat.mul_le_mul_right H hiW
      rw [List.getElem?_append, if_pos hlt]
      exact ih i j hiW hj
    · have hiw : i = W := by omega
      subst hiw
      have hlen : ((List.range i).flatMap f).length = i * H := flatMap_range_length f i H hf
      rw [List.getElem?_append_right (by omega)]
      rw [hlen]
      have hsub : i * H + j - i * H = j := by omega
      rw [hsub]
      simp

lemma serializedList_length (img : Nat → Nat → Color) (tex : Palette)
    (alg : Color → Palette → Nat × Nat) :
    (serializedList img tex alg).length = 6600 := by
  unfold serializedList
  exact flatMap_range_length _ 100 66 (fun i => by simp)

lemma serializedList_getElem (img : Nat → Nat → Color) (tex : Palette)
    (alg : Color → Palette → Nat × Nat) {i j : Nat} (hi : i < 100) (hj : j < 66) :
    (serializedList img tex alg)[i * 66 + (65 - j)]?
      = some (encodePixelToken (alg (img j i) tex)) := by
  unfold serializedList
  rw [flatMap_range_getElem _ 66 (fun i => by simp) 100 i (65 - j) hi (by omega)]
  rw [List.getElem?_map]
  rw [List.getElem?_reverse (by simp; omega)]
  have hidx : (List.range 66).length - 1 - (65 - j) = j := by simp; omega
  rw [hidx, List.getElem?_range hj]
  rfl

lemma positionsDec_length : positionsDec.length = 6600 := by
  unfold positionsDec
  exact flatMap_range_length _ 100 66 (fun i => by simp)

lemma positionsDec_getElem {i j : Nat} (hi : i < 100) (hj : j < 66) :
    positionsDec[i * 66 + j]? = some (i, j) := by
  unfold positionsDec
  rw [flatMap_range_getElem _ 66 (fun i => by simp) 100 i j hi hj]
  rw [List.getElem?_map, List.getElem?_range hj]
  rfl

lemma positionsDec_getElem_inv {m : Nat} {i j : Nat}
    (h : positionsDec[m]? = some (i, j)) : m = i * 66 + j ∧ i < 100 ∧ j < 66 := by
  have hm : m < 6600 := by
    have := List.getElem?_eq_some_iff.mp h
    rcases this with ⟨hlt, _⟩
    rw [positionsDec_length] at hlt
    exact hlt
  have hdiv : positionsDec[(m / 66) * 66 + m % 66]? = some (m / 66, m % 66) :=
    positionsDec_getElem (by omega) (by omega)
  have heq : (m / 66) * 66 + m % 66 = m := by omega
  rw [heq] at hdiv
  rw [h] at hdiv
  have hpair := Option.some_inj.mp hdiv
  have h1 : i = m / 66 := congrArg Prod.fst hpair
  have h2 : j = m % 66 := congrArg Prod.snd hpair
  omega

/-! ### Scanner characterization: the fold returns the earliest minimal cell -/

lemma find?_congr {α : Type} (p q : α → Bool) :
    ∀ l : List α, (∀ x ∈ l, p x = q x) → l.find? p = l.find? q := by
  intro l
  induction l with
  | nil => intro _; rfl
  | cons a t ih =>
    intro h
    have ha := h a (by simp)
    by_cases hpa : p a = true
    · rw [List.find?_cons_of_pos t hpa, List.find?_cons_of_pos t (ha ▸ hpa)]
    · have hqa : ¬q a = true := by rw [← ha]; exact hpa
      rw [List.find?_cons_of_neg t hpa, List.find?_cons_of_neg t hqa]
      exact ih (fun x hx => h x (List.mem_cons_of_mem _ hx))

lemma scan_foldl_eq_go (d : Nat × Nat → ℚ) :
    ∀ (l : List (Nat × Nat)) (b : Nat × Nat) (m : ℚ),
      (l.foldl (scanStep d) (b, some m)).1 = scanGo d l b m := by
  intro l
  induction l with
  | nil => intro b m; rfl
  | cons p t ih =>
    intro b m
    simp only [List.foldl_cons, scanGo]
    by_cases h : d p < m
    · have hstep : scanStep d (b, some m) p = (p, some (d p)) := by
        simp [scanStep, if_pos h]
      rw [if_pos h, hstep, ih]
    · have hstep : scanStep d (b, some m) p = (b, some m) := by
        simp [scanStep, if_neg h]
      rw [if_neg h, hstep, ih]

lemma scanOrder_eq_cons : scanOrder = (0, 0) :: scanOrderTail := by decide

lemma findClosest_eq_go (d : Nat × Nat → ℚ) :
    findClosestGeneric d = scanGo d scanOrderTail (0, 0) (d (0, 0)) := by
  unfold findClosestGeneric
  rw [scanOrder_eq_cons]
  have h1 : scanStep d (((0 : Nat), (0 : Nat)), none) (0, 0) = ((0, 0), some (d (0, 0))) := rfl
  rw [List.foldl_cons, h1, scan_foldl_eq_go]

lemma scanGo_firstMin (d : Nat × Nat → ℚ) :
    ∀ (l : List (Nat × Nat)) (b : Nat × Nat),
      (b :: l).find? (fun p => decide (∀ q ∈ b :: l, d p ≤ d q))
        = some (scanGo d l b (d b)) := by
  intro l
  induction l with
  | nil =>
    intro b
    have hb : decide (∀ q ∈ [b], d b ≤ d q) = true := by
      apply decide_eq_true
      intro q hq
      rcases List.mem_singleton.mp hq with rfl
      exact le_refl _
    have step : List.find? (fun p => decide (∀ q ∈ [b], d p ≤ d q)) (b :: ([] : List (Nat × Nat)))
        = some b := List.find?_cons_of_pos _ hb
    rw [step]
    rfl
  | cons p t ih =>
    intro b
    by_cases hlt : d p < d b
    · have hnb : ¬decide (∀ q ∈ b :: p :: t, d b ≤ d q) = true := by
        simp only [decide_eq_true_eq]
        intro hall
        exact absurd (hall p (by simp)) (not_le.mpr hlt)
      have step1 : List.find? (fun x => decide (∀ q ∈ b :: p :: t, d x ≤ d q)) (b :: p :: t)
          = List.find? (fun x => decide (∀ q ∈ b :: p :: t, d x ≤ d q)) (p :: t) :=
        List.find?_cons_of_neg _ hnb
      rw [step1]
      have hcong : ∀ x ∈ p :: t,
          (fun x => decide (∀ q ∈ b :: p :: t, d x ≤ d q)) x
            = (fun x => decide (∀ q ∈ p :: t, d x ≤ d q)) x := by
        intro x _
        apply decide_eq_decide.mpr
        constructor
        · intro h q hq
          exact h q (List.mem_cons_of_mem _ hq)
        · intro h q hq
          rcases List.mem_cons.mp hq with rfl | hq2
          · exact le_of_lt (lt_of_le_of_lt (h p (by simp)) hlt)
          · exact h q hq2
      rw [find?_congr _ _ (p :: t) hcong, ih p]
      have hgo : scanGo d (p :: t) b (d b) = scanGo d t p (d p) := by
        simp only [scanGo, if_pos hlt]
      rw [hgo]
    · have hbp : d b ≤ d p := not_lt.mp hlt
      have hgo : scanGo d (p :: t) b (d b) = scanGo d t b (d b) := by
        simp only [scanGo, if_neg hlt]
      rw [hgo]
      by_cases hb : ∀ q ∈ b :: t, d b ≤ d q
      · have hbamb : decide (∀ q ∈ b :: p :: t, d b ≤ d q) = true := by
          apply decide_eq_true
          intro q hq
          rcases List.mem_cons.mp hq with rfl | hq2
          · exact le_refl _
          · rcases List.mem_cons.mp hq2 with rfl | hq3
            · exact hbp
            · exact hb q (List.mem_cons_of_mem _ hq3)
        have step1 : List.find? (fun x => decide (∀ q ∈ b :: p :: t, d x ≤ d q)) (b :: p :: t)
            = some b := List.find?_cons_of_pos _ hbamb
        rw [step1]
        have hbbt : decide (∀ q ∈ b :: t, d b ≤ d q) = true := decide_eq_true hb
        have hbt := ih b
        have step2 : List.find? (fun x => decide (∀ q ∈ b :: t, d x ≤ d q)) (b :: t)
            = some b := List.find?_cons_of_pos _ hbbt
        rw [step2] at hbt
        exact hbt
      · push_neg at hb
        obtain ⟨r, hr, hrb⟩ := hb
        have hrt : r ∈ t := by
          rcases List.mem_cons.mp hr with rfl | hr2
          · exact absurd hrb (lt_irrefl _)
          · exact hr2
        have hramb : r ∈ b :: p :: t := List.mem_cons_of_mem _ (List.mem_cons_of_mem _ hrt)
        have hnamb : ¬decide (∀ q ∈ b :: p :: t, d b ≤ d q) = true := by
          simp only [decide_eq_true_eq]
          intro hall
          exact absurd (hall r hramb) (not_le.mpr hrb)
        have hnambP : ¬decide (∀ q ∈ b :: p :: t, d p ≤ d q) = true := by
          simp only [decide_eq_true_eq]
          intro hall
          exact absurd (hall r hramb) (not_le.mpr (lt_of_lt_of_le hrb hbp))
        have step1 : List.find? (fun x => decide (∀ q ∈ b :: p :: t, d x ≤ d q)) (b :: p :: t)
            = List.find? (fun x => decide (∀ q ∈ b :: p :: t, d x ≤ d q)) (p :: t) :=
          List.find?_cons_of_neg _ hnamb
        have step2 : List.find? (fun x => decide (∀ q ∈ b :: p :: t, d x ≤ d q)) (p :: t)
            = List.find? (fun x => decide (∀ q ∈ b :: p :: t, d x ≤ d q)) t :=
          List.find?_cons_of_neg _ hnambP
        rw [step1, step2]
        have hnbt : ¬decide (∀ q ∈ b :: t, d b ≤ d q) = true := by
          simp only [decide_eq_true_eq]
          intro hall
          exact absurd (hall r hr) (not_le.mpr hrb)
        have hbt := ih b
        have step3 : List.find? (fun x => decide (∀ q ∈ b :: t, d x ≤ d q)) (b :: t)
            = List.find? (fun x => decide (∀ q ∈ b :: t, d x ≤ d q)) t :=
          List.find?_cons_of_neg _ hnbt
        rw [step3] at hbt
        rw [← hbt]
        apply find?_congr
        intro x _
        apply decide_eq_decide.mpr
        constructor
        · intro h q hq
          rcases List.mem_cons.mp hq with rfl | hq2
          · exact h q (by simp)
          · exact h q (List.mem_cons_of_mem _ (List.mem_cons_of_mem _ hq2))
        · intro h q hq
          rcases List.mem_cons.mp hq with rfl | hq2
          · exact h q (by simp)
          · rcases List.mem_cons.mp hq2 with rfl | hq3
            · exact le_trans (h b (by simp)) hbp
            · exact h q (List.mem_cons_of_mem _ hq3)

lemma findClosest_eq_firstMinimal (d : Nat × Nat → ℚ) :
    findClosestGeneric d = firstMinimal d := by
  rw [findClosest_eq_go]
  unfold firstMinimal
  rw [scanOrder_eq_cons, scanGo_firstMin d scanOrderTail (0, 0)]
  rfl

lemma findClosest_find? (d : Nat × Nat → ℚ) :
    scanOrder.find? (fun p => decide (∀ q ∈ scanOrder, d p ≤ d q))
      = some (findClosestGeneric d) := by
  rw [findClosest_eq_go]
  conv =>
    lhs
    rw [scanOrder_eq_cons]
  exact scanGo_firstMin d scanOrderTail (0, 0)

lemma find?_eq_some_parts {α : Type} {p : α → Bool} :
    ∀ {l : List α} {r : α}, l.find? p = some r →
      ∃ pre post, l = pre ++ r :: post ∧ (∀ a ∈ pre, p a = false) ∧ p r = true := by
  intro l
  induction l with
  | nil => intro r h; simp [List.find?] at h
  | cons a t ih =>
    intro r h
    by_cases hpa : p a = true
    · rw [List.find?_cons_of_pos _ hpa] at h
      obtain rfl : a = r := Option.some_inj.mp h
      exact ⟨[], t, rfl, by simp, hpa⟩
    · rw [List.find?_cons_of_neg _ hpa] at h
      obtain ⟨pre, post, ht, hpre, hr⟩ := ih h
      have hpaf : p a = false := by
        revert hpa; cases p a <;> simp
      refine ⟨a :: pre, post, by rw [List.cons_append, ht], ?_, hr⟩
      intro x hx
      rcases List.mem_cons.mp hx with rfl | hx2
      · exact hpaf
      · exact hpre x hx2

lemma find?_append_first {α : Type} {p : α → Bool} (r : α) (post : List α) :
    ∀ pre : List α, (∀ a ∈ pre, p a = false) → p r = true →
      (pre ++ r :: post).find? p = some r := by
  intro pre
  induction pre with
  | nil => intro _ hr; simpa using List.find?_cons_of_pos post hr
  | cons a t ih =>
    intro hpre hr
    have ha : ¬p a = true := by rw [hpre a (by simp)]; simp
    rw [List.cons_append, List.find?_cons_of_neg _ ha]
    exact ih (fun x hx => hpre x (List.mem_cons_of_mem _ hx)) hr

/-! ### Grid update lemmas -/

lemma getD_set_cond {α : Type} (l : List α) (k k2 : Nat) (x : α) (d : α) :
    (l.set k x).getD k2 d = if k = k2 ∧ k < l.length then x else l.getD k2 d := by
  by_cases h1 : k = k2
  · subst h1
    by_cases h2 : k < l.length
    · simp [List.getD_eq_getElem?_getD, List.getElem?_set, h2]
    · have hnone : l[k]? = none := List.getElem?_eq_none (by omega)
      simp [List.getD_eq_getElem?_getD, List.getElem?_set, h2, hnone]
  · simp [List.getD_eq_getElem?_getD, List.getElem?_set, h1]

lemma gridGet_setGrid_ne (g : Grid) (j i : Nat) (c : Color) (j2 i2 : Nat)
    (h : ¬(i2 = i ∧ j2 = j)) :
    gridGet (setGrid g j i c) j2 i2 = gridGet g j2 i2 := by
  unfold gridGet setGrid
  rw [getD_set_cond]
  by_cases hj : j = j2 ∧ j < g.length
  · rw [if_pos hj]
    obtain ⟨hjj, _⟩ := hj
    subst hjj
    rw [getD_set_cond]
    have hii : ¬(i = i2 ∧ i < (g.getD j []).length) := by
      intro hc
      exact h ⟨hc.1.symm, rfl⟩
    rw [if_neg hii]
  · rw [if_neg hj]

lemma gridGet_setGrid_eq (g : Grid) (j i : Nat) (c : Color)
    (hj : j < g.length) (hi : i < (g.getD j []).length) :
    gridGet (setGrid g j i c) j i = c := by
  unfold gridGet setGrid
  rw [getD_set_cond, if_pos ⟨rfl, hj⟩, getD_set_cond, if_pos ⟨rfl, hi⟩]

lemma setGrid_length (g : Grid) (j i : Nat) (c : Color) :
    (setGrid g j i c).length = g.length := List.length_set g j _

lemma setGrid_row_length (g : Grid) (j i : Nat) (c : Color) (j2 : Nat) :
    ((setGrid g j i c).getD j2 []).length = (g.getD j2 []).length := by
  unfold setGrid
  rw [getD_set_cond]
  by_cases hj : j = j2 ∧ j < g.length
  · rw [if_pos hj, List.length_set]
    obtain ⟨hjj, _⟩ := hj
    subst hjj
    rfl
  · rw [if_neg hj]

/-! ### Decode loop lemmas -/

lemma foldFill_length (toks : List String) (tex : Palette) :
    ∀ (ps : List (Nat × Nat)) (num : Nat) (g : Grid),
      (foldFill toks tex ps num g).length = g.length := by
  intro ps
  induction ps with
  | nil => intro num g; rfl
  | cons hd rest ih =>
    obtain ⟨i0, j0⟩ := hd
    intro num g
    simp only [foldFill]
    by_cases hn : num < toks.length
    · rw [if_pos hn, ih, setGrid_length]
    · rw [if_neg hn, ih]

lemma foldFill_row_length (toks : List String) (tex : Palette) :
    ∀ (ps : List (Nat × Nat)) (num : Nat) (g : Grid) (j : Nat),
      ((foldFill toks tex ps num g).getD j []).length = ((g.getD j []) : List Color).length := by
  intro ps
  induction ps with
  | nil => intro num g j; rfl
  | cons hd rest ih =>
    obtain ⟨i0, j0⟩ := hd
    intro num g j
    simp only [foldFill]
    by_cases hn : num < toks.length
    · rw [if_pos hn, ih, setGrid_row_length]
    · rw [if_neg hn, ih]

lemma foldFill_get_miss (toks : List String) (tex : Palette) :
    ∀ (ps : List (Nat × Nat)) (num : Nat) (g : Grid) (i j : Nat),
      (∀ p ∈ ps, p ≠ (i, j)) →
      gridGet (foldFill toks tex ps num g) j i = gridGet g j i := by
  intro ps
  induction ps with
  | nil => intro num g i j _; rfl
  | cons hd rest ih =>
    obtain ⟨i0, j0⟩ := hd
    intro num g i j hmem
    have hne : ¬(i = i0 ∧ j = j0) := by
      intro hij
      exact hmem (i0, j0) (by simp) (by rw [← hij.1, ← hij.2])
    have htail : ∀ p ∈ rest, p ≠ (i, j) :=
      fun p hp => hmem p (List.mem_cons_of_mem _ hp)
    simp only [foldFill]
    by_cases hn : num < toks.length
    · rw [if_pos hn, ih _ _ _ _ htail, gridGet_setGrid_ne _ _ _ _ _ _ hne]
    · rw [if_neg hn, ih _ _ _ _ htail]

lemma foldFill_get_hit (toks : List String) (tex : Palette) :
    ∀ (ps : List (Nat × Nat)) (num : Nat) (g : Grid) (i j m : Nat),
      ps[m]? = some (i, j) →
      (∀ m2, m2 < ps.length → m2 ≠ m → ps[m2]? ≠ some (i, j)) →
      num + m < toks.length →
      j < g.length → i < (g.getD j []).length →
      gridGet (foldFill toks tex ps num g) j i = colourOfTokD tex (toks.getD (num + m) "") := by
  intro ps
  induction ps with
  | nil =>
    intro num g i j m hm
    simp at hm
  | cons hd rest ih =>
    obtain ⟨i0, j0⟩ := hd
    intro num g i j m hm huniq hcons hj hi
    by_cases hn : num < toks.length
    · cases m with
      | zero =>
        have hhd : (i0, j0) = (i, j) := by
          rw [List.getElem?_cons_zero] at hm
          exact Option.some_inj.mp hm
        have hi0 : i0 = i := congrArg Prod.fst hhd
        have hj0 : j0 = j := congrArg Prod.snd hhd
        simp only [foldFill, if_pos hn, hi0, hj0]
        have hnotin : ∀ p ∈ rest, p ≠ (i, j) := by
          intro p hp hpij
          subst hpij
          obtain ⟨m2, hm2⟩ := List.getElem?_of_mem hp
          have hm2lt : m2 < rest.length := (List.getElem?_eq_some_iff.mp hm2).1
          exact huniq (m2 + 1) (by simp; omega) (by omega)
            (by rw [List.getElem?_cons_succ]; exact hm2)
        rw [foldFill_get_miss _ _ _ _ _ _ _ hnotin,
          gridGet_setGrid_eq _ _ _ _ hj hi]
        rfl
      | succ m2 =>
        simp only [foldFill, if_pos hn]
        have hrec := ih (num + 1) (setGrid g j0 i0 (colourOfTokD tex (toks.getD num ""))) i j m2
          (by rw [List.getElem?_cons_succ] at hm; exact hm)
          (by intro k hk hkm2 hkeq
              exact huniq (k + 1) (by simp; omega) (by omega)
                (by rw [List.getElem?_cons_succ]; exact hkeq))
          (by omega)
          (by rw [setGrid_length]; exact hj)
          (by rw [setGrid_row_length]; exact hi)
        rw [hrec]
        have hidx : num + 1 + m2 = num + (m2 + 1) := by omega
        rw [hidx]
    · omega

lemma foldFill_get_skip (toks : List String) (tex : Palette) :
    ∀ (ps : List (Nat × Nat)) (num : Nat) (g : Grid) (i j m : Nat),
      ps[m]? = some (i, j) →
      (∀ m2, m2 < ps.length → m2 ≠ m → ps[m2]? ≠ some (i, j)) →
      toks.length ≤ num + m →
      gridGet (foldFill toks tex ps num g) j i = gridGet g j i := by
  intro ps
  induction ps with
  | nil => intro num g i j m hm; simp at hm
  | cons hd rest ih =>
    obtain ⟨i0, j0⟩ := hd
    intro num g i j m hm huniq hlen
    by_cases hn : num < toks.length
    · cases m with
      | zero => omega
      | succ m2 =>
        have hhdne : ¬(i = i0 ∧ j = j0) := by
          intro hij
          apply huniq 0 (by simp) (by omega)
          rw [List.getElem?_cons_zero, hij.1, hij.2]
        simp only [foldFill, if_pos hn]
        have hrec := ih (num + 1) (setGrid g j0 i0 (colourOfTokD tex (toks.getD num ""))) i j m2
          (by rw [List.getElem?_cons_succ] at hm; exact hm)
          (by intro k hk hkm2 hkeq
              exact huniq (k + 1) (by simp; omega) (by omega)
                (by rw [List.getElem?_cons_succ]; exact hkeq))
          (by omega)
        rw [hrec, gridGet_setGrid_ne _ _ _ _ _ _ hhdne]
    · cases m with
      | zero =>
        have hhd : (i0, j0) = (i, j) := by
          rw [List.getElem?_cons_zero] at hm
          exact Option.some_inj.mp hm
        simp only [foldFill, if_neg hn]
        have hnotin : ∀ p ∈ rest, p ≠ (i, j) := by
          intro p hp hpij
          subst hpij
          obtain ⟨m2, hm2⟩ := List.getElem?_of_mem hp
          have hm2lt : m2 < rest.length := (List.getElem?_eq_some_iff.mp hm2).1
          exact huniq (m2 + 1) (by simp; omega) (by omega)
            (by rw [List.getElem?_cons_succ]; exact hm2)
        exact foldFill_get_miss _ _ _ _ _ _ _ hnotin
      | succ m2 =>
        simp only [foldFill, if_neg hn]
        exact ih num g i j m2
          (by rw [List.getElem?_cons_succ] at hm; exact hm)
          (by intro k hk hkm2 hkeq
              exact huniq (k + 1) (by simp; omega) (by omega)
                (by rw [List.getElem?_cons_succ]; exact hkeq))
          (by omega)

lemma decodeLoop_eq_foldFill (toks : List String) (tex : Palette) :
    ∀ (ps : List (Nat × Nat)) (num : Nat) (g : Grid),
      (∀ m, m < ps.length → num + m < toks.length →
        (parsePair (toks.getD (num + m) "")).isSome = true) →
      decodeLoop toks tex ps num g = some (foldFill toks tex ps num g) := by
  intro ps
  induction ps with
  | nil => intro num g _; rfl
  | cons hd rest ih =>
    obtain ⟨i0, j0⟩ := hd
    intro num g hp
    by_cases hn : num < toks.length
    · have hp0 : (parsePair (toks.getD num "")).isSome = true := by
        have := hp 0 (by simp) (by omega)
        simpa using this
      obtain ⟨xy, hxy⟩ := Option.isSome_iff_exists.mp hp0
      obtain ⟨x, y⟩ := xy
      have hgd : toks.getD num "" = toks[num] := by
        rw [List.getD_eq_getElem?_getD, List.getElem?_eq_getElem hn]
        rfl
      have hxy2 : parsePair toks[num] = some (x, y) := by rw [← hgd]; exact hxy
      have hcol : colourOfTokD tex (toks.getD num "") = decodeColour tex x y := by
        unfold colourOfTokD
        rw [hxy]
      simp only [decodeLoop, foldFill, dif_pos hn, if_pos hn, hxy2, hcol]
      exact ih (num + 1) _ (by
        intro m hm hlen
        have := hp (m + 1) (by simp; omega) (by omega)
        have hidx : num + (m + 1) = num + 1 + m := by omega
        rw [hidx] at this
        exact this)
    · simp only [decodeLoop, foldFill, dif_neg hn, if_neg hn]
      exact ih num g (by
        intro m hm hlen
        exact absurd hlen (by omega))

lemma decodeLoop_fail (toks : List String) (tex : Palette) :
    ∀ (ps : List (Nat × Nat)) (num : Nat) (g : Grid),
      (∃ m, m < ps.length ∧ num + m < toks.length ∧
        parsePair (toks.getD (num + m) "") = none) →
      decodeLoop toks tex ps num g = none := by
  intro ps
  induction ps with
  | nil =>
    intro num g hex
    obtain ⟨m, hm, _, _⟩ := hex
    simp at hm
  | cons hd rest ih =>
    obtain ⟨i0, j0⟩ := hd
    intro num g hex
    obtain ⟨m, hm, hmlen, hmfail⟩ := hex
    by_cases hn : num < toks.length
    · cases hp0 : parsePair toks[num] with
      | none => simp only [decodeLoop, dif_pos hn, hp0]
      | some xy =>
        obtain ⟨x, y⟩ := xy
        have hgd : toks.getD num "" = toks[num] := by
          rw [List.getD_eq_getElem?_getD, List.getElem?_eq_getElem hn]
          rfl
        have hm0 : m ≠ 0 := by
          intro h0
          subst h0
          rw [Nat.add_zero, hgd, hp0] at hmfail
          exact Option.noConfusion hmfail
        obtain ⟨m2, rfl⟩ : ∃ m2, m = m2 + 1 := ⟨m - 1, by omega⟩
        simp only [decodeLoop, dif_pos hn, hp0]
        exact ih (num + 1) _ ⟨m2, by simpa using hm, by omega,
          by have hidx : num + 1 + m2 = num + (m2 + 1) := by omega
             rw [hidx]; exact hmfail⟩
    · exact absurd hmlen (by omega)

/-! ### Decoder characterization -/

lemma initGrid_length : initGrid.length = 66 := by simp [initGrid]

lemma initGrid_row (j : Nat) (hj : j < 66) :
    initGrid.getD j [] = List.replicate 100 blackColour := by
  unfold initGrid
  rw [List.getD_eq_getElem?_getD, List.getElem?_replicate, if_pos hj]
  rfl

lemma gridGet_init (j i : Nat) : gridGet initGrid j i = blackColour := by
  have houter : initGrid.getD j [] = if j < 66 then List.replicate 100 blackColour else [] := by
    unfold initGrid
    rw [List.getD_eq_getElem?_getD (List.replicate 66 (List.replicate 100 blackColour)) j [],
      List.getElem?_replicate]
    by_cases hj : j < 66
    · rw [if_pos hj, if_pos hj]; rfl
    · rw [if_neg hj, if_neg hj]; rfl
  unfold gridGet
  rw [houter]
  by_cases hj : j < 66
  · rw [if_pos hj]
    rw [List.getD_eq_getElem?_getD (List.replicate 100 blackColour) i blackColour,
      List.getElem?_replicate]
    by_cases hi : i < 100
    · rw [if_pos hi]; rfl
    · rw [if_neg hi]; rfl
  · rw [if_neg hj]; rfl

lemma getD_reverse {α : Type} (l : List α) (j : Nat) (d : α) (hj : j < l.length) :
    l.reverse.getD j d = l.getD (l.length - 1 - j) d := by
  rw [List.getD_eq_getElem?_getD, List.getD_eq_getElem?_getD, List.getElem?_reverse hj]

lemma decode_char (s : String) (tex : Palette)
    (hp : ∀ k, k < (pySplit s ',').length → k < 6600 →
      (parsePair ((pySplit s ',').getD k "")).isSome = true) :
    ∃ g, create_uv_preview_image s tex = some g ∧
      g.length = 66 ∧ (∀ j, j < 66 → (g.getD j []).length = 100) ∧
      ∀ i j, i < 100 → j < 66 →
        gridGet g j i = (if i * 66 + (65 - j) < (pySplit s ',').length
            then colourOfTokD tex ((pySplit s ',').getD (i * 66 + (65 - j)) "")
            else blackColour) := by
  set toks := pySplit s ',' with htoks
  have hloop : decodeLoop toks tex positionsDec 0 initGrid
      = some (foldFill toks tex positionsDec 0 initGrid) := by
    apply decodeLoop_eq_foldFill
    intro m hm hlen
    rw [positionsDec_length] at hm
    have h0m : 0 + m = m := by omega
    rw [h0m]
    rw [h0m] at hlen
    exact hp m hlen hm
  set ff := foldFill toks tex positionsDec 0 initGrid with hff
  have hmain : create_uv_preview_image s tex = some ff.reverse := by
    unfold create_uv_preview_image
    rw [← htoks, hloop]
    rfl
  have hfflen : ff.length = 66 := by
    rw [hff, foldFill_length, initGrid_length]
  have hffrow : ∀ j, (ff.getD j []).length = (initGrid.getD j []).length := by
    intro j
    rw [hff, foldFill_row_length]
  refine ⟨ff.reverse, hmain, by simpa using hfflen, ?_, ?_⟩
  · intro j hj
    have hjlen : j < ff.length := by omega
    rw [getD_reverse ff j [] hjlen, hfflen]
    rw [hffrow (66 - 1 - j), initGrid_row (66 - 1 - j) (by omega)]
    simp
  · intro i j hi hj
    have hj2 : 65 - j < 66 := by omega
    have hget : gridGet ff.reverse j i = gridGet ff (65 - j) i := by
      unfold gridGet
      rw [getD_reverse ff j [] (by omega), hfflen]
    rw [hget]
    have hpos : positionsDec[i * 66 + (65 - j)]? = some (i, 65 - j) :=
      positionsDec_getElem hi hj2
    have huniq : ∀ m2, m2 < positionsDec.length → m2 ≠ i * 66 + (65 - j) →
        positionsDec[m2]? ≠ some (i, 65 - j) := by
      intro m2 hm2 hne hcontra
      obtain ⟨heq, _, _⟩ := positionsDec_getElem_inv hcontra
      exact hne heq
    by_cases hk : i * 66 + (65 - j) < toks.length
    · rw [if_pos hk]
      have hhit := foldFill_get_hit toks tex positionsDec 0 initGrid i (65 - j)
        (i * 66 + (65 - j)) hpos huniq (by omega)
        (by rw [initGrid_length]; omega)
        (by rw [initGrid_row _ hj2]; simp; omega)
      rw [hff]
      have h0k : (0 : Nat) + (i * 66 + (65 - j)) = i * 66 + (65 - j) := by omega
      rw [h0k] at hhit
      exact hhit
    · rw [if_neg hk]
      have hskip := foldFill_get_skip toks tex positionsDec 0 initGrid i (65 - j)
        (i * 66 + (65 - j)) hpos huniq (by omega)
      rw [hff, hskip, gridGet_init]

/-! ### Parameterized decode loop lemmas -/

lemma decodeLoop_eq_decodeLoopC (toks : List String) (tex : Palette) :
    ∀ (ps : List (Nat × Nat)) (num : Nat) (g : Grid),
      decodeLoop toks tex ps num g = decodeLoopC toks (entryColour tex) ps num g := by
  intro ps
  induction ps with
  | nil => intro num g; rfl
  | cons hd rest ih =>
    obtain ⟨i0, j0⟩ := hd
    intro num g
    by_cases hn : num < toks.length
    · cases hp : parsePair toks[num] with
      | none =>
        have hC : entryColour tex toks[num] = none := by
          unfold entryColour
          rw [hp]
          rfl
        simp only [decodeLoop, decodeLoopC, dif_pos hn, hp, hC]
      | some xy =>
        obtain ⟨x, y⟩ := xy
        have hC : entryColour tex toks[num] = some (decodeColour tex x y) := by
          unfold entryColour
          rw [hp]
          rfl
        simp only [decodeLoop, decodeLoopC, dif_pos hn, hp, hC]
        exact ih (num + 1) _
    · simp only [decodeLoop, decodeLoopC, dif_neg hn]
      exact ih num g

lemma create_uv_preview_image_eq (s : String) (tex : Palette) :
    create_uv_preview_image s tex = create_uv_preview_imageC s (entryColour tex) := by
  unfold create_uv_preview_image create_uv_preview_imageC
  rw [decodeLoop_eq_decodeLoopC]

lemma entryColour_isSome (tex : Palette) (t : String) :
    (entryColour tex t).isSome = (parsePair t).isSome := by
  unfold entryColour
  cases parsePair t <;> rfl

lemma foldFillK_length (toks : List String) (K : String → Color) :
    ∀ (ps : List (Nat × Nat)) (num : Nat) (g : Grid),
      (foldFillK toks K ps num g).length = g.length := by
  intro ps
  induction ps with
  | nil => intro num g; rfl
  | cons hd rest ih =>
    obtain ⟨i0, j0⟩ := hd
    intro num g
    simp only [foldFillK]
    by_cases hn : num < toks.length
    · rw [if_pos hn, ih, setGrid_length]
    · rw [if_neg hn, ih]

lemma foldFillK_row_length (toks : List String) (K : String → Color) :
    ∀ (ps : List (Nat × Nat)) (num : Nat) (g : Grid) (j : Nat),
      ((foldFillK toks K ps num g).getD j []).length = ((g.getD j []) : List Color).length := by
  intro ps
  induction ps with
  | nil => intro num g j; rfl
  | cons hd rest ih =>
    obtain ⟨i0, j0⟩ := hd
    intro num g j
    simp only [foldFillK]
    by_cases hn : num < toks.length
    · rw [if_pos hn, ih, setGrid_row_length]
    · rw [if_neg hn, ih]

lemma foldFillK_get_miss (toks : List String) (K : String → Color) :
    ∀ (ps : List (Nat × Nat)) (num : Nat) (g : Grid) (i j : Nat),
      (∀ p ∈ ps, p ≠ (i, j)) →
      gridGet (foldFillK toks K ps num g) j i = gridGet g j i := by
  intro ps
  induction ps with
  | nil => intro num g i j _; rfl
  | cons hd rest ih =>
    obtain ⟨i0, j0⟩ := hd
    intro num g i j hmem
    have hne : ¬(i = i0 ∧ j = j0) := by
      intro hij
      exact hmem (i0, j0) (by simp) (by rw [← hij.1, ← hij.2])
    have htail : ∀ p ∈ rest, p ≠ (i, j) :=
      fun p hp => hmem p (List.mem_cons_of_mem _ hp)
    simp only [foldFillK]
    by_cases hn : num < toks.length
    · rw [if_pos hn, ih _ _ _ _ htail, gridGet_setGrid_ne _ _ _ _ _ _ hne]
    · rw [if_neg hn, ih _ _ _ _ htail]

lemma foldFillK_get_hit (toks : List String) (K : String → Color) :
    ∀ (ps : List (Nat × Nat)) (num : Nat) (g : Grid) (i j m : Nat),
      ps[m]? = some (i, j) →
      (∀ m2, m2 < ps.length → m2 ≠ m → ps[m2]? ≠ some (i, j)) →
      num + m < toks.length →
      j < g.length → i < (g.getD j []).length →
      gridGet (foldFillK toks K ps num g) j i = K (toks.getD (num + m) "") := by
  intro ps
  induction ps with
  | nil =>
    intro num g i j m hm
    simp at hm
  | cons hd rest ih =>
    obtain ⟨i0, j0⟩ := hd
    intro num g i j m hm huniq hcons hj hi
    by_cases hn : num < toks.length
    · cases m with
      | zero =>
        have hhd : (i0, j0) = (i, j) := by
          rw [List.getElem?_cons_zero] at hm
          exact Option.some_inj.mp hm
        have hi0 : i0 = i := congrArg Prod.fst hhd
        have hj0 : j0 = j := congrArg Prod.snd hhd
        simp only [foldFillK, if_pos hn, hi0, hj0]
        have hnotin : ∀ p ∈ rest, p ≠ (i, j) := by
          intro p hp hpij
          subst hpij
          obtain ⟨m2, hm2⟩ := List.getElem?_of_mem hp
          have hm2lt : m2 < rest.length := (List.getElem?_eq_some_iff.mp hm2).1
          exact huniq (m2 + 1) (by simp; omega) (by omega)
            (by rw [List.getElem?_cons_succ]; exact hm2)
        rw [foldFillK_get_miss _ _ _ _ _ _ _ hnotin,
          gridGet_setGrid_eq _ _ _ _ hj hi]
        rfl
      | succ m2 =>
        simp only [foldFillK, if_pos hn]
        have hrec := ih (num + 1) (setGrid g j0 i0 (K (toks.getD num ""))) i j m2
          (by rw [List.getElem?_cons_succ] at hm; exact hm)
          (by intro k hk hkm2 hkeq
              exact huniq (k + 1) (by simp; omega) (by omega)
                (by rw [List.getElem?_cons_succ]; exact hkeq))
          (by omega)
          (by rw [setGrid_length]; exact hj)
          (by rw [setGrid_row_length]; exact hi)
        rw [hrec]
        have hidx : num + 1 + m2 = num + (m2 + 1) := by omega
        rw [hidx]
    · omega

lemma foldFillK_get_skip (toks : List String) (K : String → Color) :
    ∀ (ps : List (Nat × Nat)) (num : Nat) (g : Grid) (i j m : Nat),
      ps[m]? = some (i, j) →
      (∀ m2, m2 < ps.length → m2 ≠ m → ps[m2]? ≠ some (i, j)) →
      toks.length ≤ num + m →
      gridGet (foldFillK toks K ps num g) j i = gridGet g j i := by
  intro ps
  induction ps with
  | nil => intro num g i j m hm; simp at hm
  | cons hd rest ih =>
    obtain ⟨i0, j0⟩ := hd
    intro num g i j m hm huniq hlen
    by_cases hn : num < toks.length
    · cases m with
      | zero => omega
      | succ m2 =>
        have hhdne : ¬(i = i0 ∧ j = j0) := by
          intro hij
          apply huniq 0 (by simp) (by omega)
          rw [List.getElem?_cons_zero, hij.1, hij.2]
        simp only [foldFillK, if_pos hn]
        have hrec := ih (num + 1) (setGrid g j0 i0 (K (toks.getD num ""))) i j m2
          (by rw [List.getElem?_cons_succ] at hm; exact hm)
          (by intro k hk hkm2 hkeq
              exact huniq (k + 1) (by simp; omega) (by omega)
                (by rw [List.getElem?_cons_succ]; exact hkeq))
          (by omega)
        rw [hrec, gridGet_setGrid_ne _ _ _ _ _ _ hhdne]
    · cases m with
      | zero =>
        have hhd : (i0, j0) = (i, j) := by
          rw [List.getElem?_cons_zero] at hm
          exact Option.some_inj.mp hm
        simp only [foldFillK, if_neg hn]
        have hnotin : ∀ p ∈ rest, p ≠ (i, j) := by
          intro p hp hpij
          subst hpij
          obtain ⟨m2, hm2⟩ := List.getElem?_of_mem hp
          have hm2lt : m2 < rest.length := (List.getElem?_eq_some_iff.mp hm2).1
          exact huniq (m2 + 1) (by simp; omega) (by omega)
            (by rw [List.getElem?_cons_succ]; exact hm2)
        exact foldFillK_get_miss _ _ _ _ _ _ _ hnotin
      | succ m2 =>
        simp only [foldFillK, if_neg hn]
        exact ih num g i j m2
          (by rw [List.getElem?_cons_succ] at hm; exact hm)
          (by intro k hk hkm2 hkeq
              exact huniq (k + 1) (by simp; omega) (by omega)
                (by rw [List.getElem?_cons_succ]; exact hkeq))
          (by omega)

lemma decodeLoopC_eq_foldFillK (toks : List String) (C : String → Option Color) :
    ∀ (ps : List (Nat × Nat)) (num : Nat) (g : Grid),
      (∀ m, m < ps.length → num + m < toks.length →
        (C (toks.getD (num + m) "")).isSome = true) →
      decodeLoopC toks C ps num g
        = some (foldFillK toks (fun t => (C t).getD blackColour) ps num g) := by
  intro ps
  induction ps with
  | nil => intro num g _; rfl
  | cons hd rest ih =>
    obtain ⟨i0, j0⟩ := hd
    intro num g hp
    by_cases hn : num < toks.length
    · have hp0 : (C (toks.getD num "")).isSome = true := by
        have := hp 0 (by simp) (by omega)
        simpa using this
      obtain ⟨c, hc⟩ := Option.isSome_iff_exists.mp hp0
      have hgd : toks.getD num "" = toks[num] := by
        rw [List.getD_eq_getElem?_getD, List.getElem?_eq_getElem hn]
        rfl
      have hc2 : C toks[num] = some c := by rw [← hgd]; exact hc
      have hcol : (C (toks.getD num "")).getD blackColour = c := by
        rw [hc]
        rfl
      simp only [decodeLoopC, foldFillK, dif_pos hn, if_pos hn, hc2, hcol]
      exact ih (num + 1) _ (by
        intro m hm hlen
        have := hp (m + 1) (by simp; omega) (by omega)
        have hidx : num + (m + 1) = num + 1 + m := by omega
        rw [hidx] at this
        exact this)
    · simp only [decodeLoopC, foldFillK, dif_neg hn, if_neg hn]
      exact ih num g (by
        intro m hm hlen
        exact absurd hlen (by omega))

lemma decodeLoopC_fail (toks : List String) (C : String → Option Color) :
    ∀ (ps : List (Nat × Nat)) (num : Nat) (g : Grid),
      (∃ m, m < ps.length ∧ num + m < toks.length ∧
        C (toks.getD (num + m) "") = none) →
      decodeLoopC toks C ps num g = none := by
  intro ps
  induction ps with
  | nil =>
    intro num g hex
    obtain ⟨m, hm, _, _⟩ := hex
    simp at hm
  | cons hd rest ih =>
    obtain ⟨i0, j0⟩ := hd
    intro num g hex
    obtain ⟨m, hm, hmlen, hmfail⟩ := hex
    by_cases hn : num < toks.length
    · cases hp0 : C toks[num] with
      | none => simp only [decodeLoopC, dif_pos hn, hp0]
      | some c =>
        have hgd : toks.getD num "" = toks[num] := by
          rw [List.getD_eq_getElem?_getD, List.getElem?_eq_getElem hn]
          rfl
        have hm0 : m ≠ 0 := by
          intro h0
          subst h0
          rw [Nat.add_zero, hgd, hp0] at hmfail
          exact Option.noConfusion hmfail
        obtain ⟨m2, rfl⟩ : ∃ m2, m = m2 + 1 := ⟨m - 1, by omega⟩
        simp only [decodeLoopC, dif_pos hn, hp0]
        exact ih (num + 1) _ ⟨m2, by simpa using hm, by omega,
          by have hidx : num + 1 + m2 = num + (m2 + 1) := by omega
             rw [hidx]; exact hmfail⟩
    · exact absurd hmlen (by omega)

lemma decode_charK (s : String) (C : String → Option Color)
    (hp : ∀ k, k < (pySplit s ',').length → k < 6600 →
      (C ((pySplit s ',').getD k "")).isSome = true) :
    ∃ g, create_uv_preview_imageC s C = some g ∧
      g.length = 66 ∧ (∀ j, j < 66 → (g.getD j []).length = 100) ∧
      ∀ i j, i < 100 → j < 66 →
        gridGet g j i = (if i * 66 + (65 - j) < (pySplit s ',').length
            then (C ((pySplit s ',').getD (i * 66 + (65 - j)) "")).getD blackColour
            else blackColour) := by
  set toks := pySplit s ',' with htoks
  have hloop : decodeLoopC toks C positionsDec 0 initGrid
      = some (foldFillK toks (fun t => (C t).getD blackColour) positionsDec 0 initGrid) := by
    apply decodeLoopC_eq_foldFillK
    intro m hm hlen
    rw [positionsDec_length] at hm
    have h0m : 0 + m = m := by omega
    rw [h0m]
    rw [h0m] at hlen
    exact hp m hlen hm
  set ff := foldFillK toks (fun t => (C t).getD blackColour) positionsDec 0 initGrid with hff
  have hmain : create_uv_preview_imageC s C = some ff.reverse := by
    unfold create_uv_preview_imageC
    rw [← htoks, hloop]
    rfl
  have hfflen : ff.length = 66 := by
    rw [hff, foldFillK_length, initGrid_length]
  have hffrow : ∀ j, (ff.getD j []).length = (initGrid.getD j []).length := by
    intro j
    rw [hff, foldFillK_row_length]
  refine ⟨ff.reverse, hmain, by simpa using hfflen, ?_, ?_⟩
  · intro j hj
    have hjlen : j < ff.length := by omega
    rw [getD_reverse ff j [] hjlen, hfflen]
    rw [hffrow (66 - 1 - j), initGrid_row (66 - 1 - j) (by omega)]
    simp
  · intro i j hi hj
    have hj2 : 65 - j < 66 := by omega
    have hget : gridGet ff.reverse j i = gridGet ff (65 - j) i := by
      unfold gridGet
      rw [getD_reverse ff j [] (by omega), hfflen]
    rw [hget]
    have hpos : positionsDec[i * 66 + (65 - j)]? = some (i, 65 - j) :=
      positionsDec_getElem hi hj2
    have huniq : ∀ m2, m2 < positionsDec.length → m2 ≠ i * 66 + (65 - j) →
        positionsDec[m2]? ≠ some (i, 65 - j) := by
      intro m2 hm2 hne hcontra
      obtain ⟨heq, _, _⟩ := positionsDec_getElem_inv hcontra
      exact hne heq
    by_cases hk : i * 66 + (65 - j) < toks.length
    · rw [if_pos hk]
      have hhit := foldFillK_get_hit toks (fun t => (C t).getD blackColour)
        positionsDec 0 initGrid i (65 - j)
        (i * 66 + (65 - j)) hpos huniq (by omega)
        (by rw [initGrid_length]; omega)
        (by rw [initGrid_row _ hj2]; simp; omega)
      rw [hff]
      have h0k : (0 : Nat) + (i * 66 + (65 - j)) = i * 66 + (65 - j) := by omega
      rw [h0k] at hhit
      exact hhit
    · rw [if_neg hk]
      have hskip := foldFillK_get_skip toks (fun t => (C t).getD blackColour)
        positionsDec 0 initGrid i (65 - j)
        (i * 66 + (65 - j)) hpos huniq (by omega)
      rw [hff, hskip, gridGet_init]

/-! ### Token facts (42 concrete cases) and rgb distance facts -/

lemma encodePixelToken_clamp (u v : Nat) :
    encodePixelToken (u, v) = encodePixelToken (min u 6, min v 5) := by
  unfold encodePixelToken
  simp [Nat.min_assoc]

set_option maxHeartbeats 1000000 in
lemma tok_eq (u v : Nat) (hu : u ≤ 6) (hv : v ≤ 5) :
    encodePixelToken (u, v) = uTokStr u ++ ":" ++ vTokStr v := by
  interval_cases u <;> interval_cases v <;>
    · norm_num [encodePixelToken, fmt2, clipQ, roundHalfEven, pad2, min_def, uTokStr, vTokStr]
      rfl

lemma pyFloatQ_uTok (u : Nat) (hu : u ≤ 6) : pyFloatQ (uTokStr u) = some (uTokQ u) := by
  interval_cases u
  · show some ((digitsToNat ['0'] : ℚ) + (digitsToNat ['0', '1'] : ℚ) / (10 : ℚ) ^ 2)
      = some (uTokQ 0)
    rw [show digitsToNat ['0'] = 0 from rfl, show digitsToNat ['0', '1'] = 1 from rfl]
    norm_num [uTokQ]
  · show some ((digitsToNat ['0'] : ℚ) + (digitsToNat ['1', '7'] : ℚ) / (10 : ℚ) ^ 2)
      = some (uTokQ 1)
    rw [show digitsToNat ['0'] = 0 from rfl, show digitsToNat ['1', '7'] = 17 from rfl]
    norm_num [uTokQ]
  · show some ((digitsToNat ['0'] : ℚ) + (digitsToNat ['3', '3'] : ℚ) / (10 : ℚ) ^ 2)
      = some (uTokQ 2)
    rw [show digitsToNat ['0'] = 0 from rfl, show digitsToNat ['3', '3'] = 33 from rfl]
    norm_num [uTokQ]
  · show some ((digitsToNat ['0'] : ℚ) + (digitsToNat ['5', '0'] : ℚ) / (10 : ℚ) ^ 2)
      = some (uTokQ 3)
    rw [show digitsToNat ['0'] = 0 from rfl, show digitsToNat ['5', '0'] = 50 from rfl]
    norm_num [uTokQ]
  · show some ((digitsToNat ['0'] : ℚ) + (digitsToNat ['6', '7'] : ℚ) / (10 : ℚ) ^ 2)
      = some (uTokQ 4)
    rw [show digitsToNat ['0'] = 0 from rfl, show digitsToNat ['6', '7'] = 67 from rfl]
    norm_num [uTokQ]
  · show some ((digitsToNat ['0'] : ℚ) + (digitsToNat ['8', '3'] : ℚ) / (10 : ℚ) ^ 2)
      = some (uTokQ 5)
    rw [show digitsToNat ['0'] = 0 from rfl, show digitsToNat ['8', '3'] = 83 from rfl]
    norm_num [uTokQ]
  · show some ((digitsToNat ['0'] : ℚ) + (digitsToNat ['9', '9'] : ℚ) / (10 : ℚ) ^ 2)
      = some (uTokQ 6)
    rw [show digitsToNat ['0'] = 0 from rfl, show digitsToNat ['9', '9'] = 99 from rfl]
    norm_num [uTokQ]

lemma pyFloatQ_vTok (v : Nat) (hv : v ≤ 5) : pyFloatQ (vTokStr v) = some (vTokQ v) := by
  interval_cases v
  · show some ((digitsToNat ['0'] : ℚ) + (digitsToNat ['9', '9'] : ℚ) / (10 : ℚ) ^ 2)
      = some (vTokQ 0)
    rw [show digitsToNat ['0'] = 0 from rfl, show digitsToNat ['9', '9'] = 99 from rfl]
    norm_num [vTokQ]
  · show some ((digitsToNat ['0'] : ℚ) + (digitsToNat ['8', '0'] : ℚ) / (10 : ℚ) ^ 2)
      = some (vTokQ 1)
    rw [show digitsToNat ['0'] = 0 from rfl, show digitsToNat ['8', '0'] = 80 from rfl]
    norm_num [vTokQ]
  · show some ((digitsToNat ['0'] : ℚ) + (digitsToNat ['6', '0'] : ℚ) / (10 : ℚ) ^ 2)
      = some (vTokQ 2)
    rw [show digitsToNat ['0'] = 0 from rfl, show digitsToNat ['6', '0'] = 60 from rfl]
    norm_num [vTokQ]
  · show some ((digitsToNat ['0'] : ℚ) + (digitsToNat ['4', '0'] : ℚ) / (10 : ℚ) ^ 2)
      = some (vTokQ 3)
    rw [show digitsToNat ['0'] = 0 from rfl, show digitsToNat ['4', '0'] = 40 from rfl]
    norm_num [vTokQ]
  · show some ((digitsToNat ['0'] : ℚ) + (digitsToNat ['2', '0'] : ℚ) / (10 : ℚ) ^ 2)
      = some (vTokQ 4)
    rw [show digitsToNat ['0'] = 0 from rfl, show digitsToNat ['2', '0'] = 20 from rfl]
    norm_num [vTokQ]
  · show some ((digitsToNat ['0'] : ℚ) + (digitsToNat ['0', '1'] : ℚ) / (10 : ℚ) ^ 2)
      = some (vTokQ 5)
    rw [show digitsToNat ['0'] = 0 from rfl, show digitsToNat ['0', '1'] = 1 from rfl]
    norm_num [vTokQ]

lemma uTok_colonfree (u : Nat) (hu : u ≤ 6) : ¬(':' ∈ (uTokStr u).data) := by
  interval_cases u <;> decide

lemma vTok_colonfree (v : Nat) (hv : v ≤ 5) : ¬(':' ∈ (vTokStr v).data) := by
  interval_cases v <;> decide

lemma pySplit_pair (su sv : String) (h1 : ¬(':' ∈ su.data)) (h2 : ¬(':' ∈ sv.data)) :
    pySplit (su ++ ":" ++ sv) ':' = [su, sv] := by
  unfold pySplit
  have hdata : (su ++ ":" ++ sv).data = su.data ++ ':' :: sv.data := by
    simp
  rw [hdata, splitChar_append_sep ':' su.data sv.data h1, splitChar_no_sep ':' sv.data h2]
  rfl

lemma parsePair_of (t a b : String) (x y : ℚ) (hsplit : pySplit t ':' = [a, b])
    (ha : pyFloatQ a = some x) (hb : pyFloatQ b = some y) : parsePair t = some (x, y) := by
  unfold parsePair
  rw [hsplit]
  show (match pyFloatQ a, pyFloatQ b with
    | some x, some y => some (x, y)
    | _, _ => none) = some (x, y)
  rw [ha, hb]

lemma tok_parse (u v : Nat) (hu : u ≤ 6) (hv : v ≤ 5) :
    parsePair (encodePixelToken (u, v)) = some (uTokQ u, vTokQ v) := by
  rw [tok_eq u v hu hv]
  exact parsePair_of _ _ _ _ _
    (pySplit_pair _ _ (uTok_colonfree u hu) (vTok_colonfree v hv))
    (pyFloatQ_uTok u hu) (pyFloatQ_vTok v hv)

lemma uTokQ_decode (u : Nat) (hu : u ≤ 6) :
    (max 0 (min 6 (pyInt (uTokQ u * 7)))).toNat = u := by
  interval_cases u <;> (norm_num [pyInt, uTokQ]; try rfl)

lemma vTokQ_decode (v : Nat) (hv : v ≤ 5) :
    (max 0 (min 5 (pyInt ((1 - vTokQ v) * 6)))).toNat = v := by
  interval_cases v <;> (norm_num [pyInt, vTokQ]; try rfl)

lemma decodeColour_of (tex : Palette) (x y : ℚ) (iu iv : Nat)
    (hu : (max 0 (min 6 (pyInt (x * 7)))).toNat = iu)
    (hv : (max 0 (min 5 (pyInt ((1 - y) * 6)))).toNat = iv) :
    decodeColour tex x y = reverseColour (tex iv iu) := by
  show reverseColour (tex (max 0 (min 5 (pyInt ((1 - y) * 6)))).toNat
      (max 0 (min 6 (pyInt (x * 7)))).toNat) = reverseColour (tex iv iu)
  rw [hu, hv]

lemma colourOfTokD_of (tex : Palette) (t : String) (x y : ℚ)
    (h : parsePair t = some (x, y)) : colourOfTokD tex t = decodeColour tex x y := by
  unfold colourOfTokD
  rw [h]

lemma tok_colour (tex : Palette) (u v : Nat) (hu : u ≤ 6) (hv : v ≤ 5) :
    colourOfTokD tex (encodePixelToken (u, v)) = reverseColour (tex v u) := by
  rw [colourOfTokD_of tex _ _ _ (tok_parse u v hu hv),
    decodeColour_of tex _ _ u v (uTokQ_decode u hu) (vTokQ_decode v hv)]

lemma tok_isSome (u v : Nat) (hu : u ≤ 6) (hv : v ≤ 5) :
    (parsePair (encodePixelToken (u, v))).isSome = true := by
  rw [tok_parse u v hu hv]
  rfl

lemma tok_commafree (u v : Nat) (hu : u ≤ 6) (hv : v ≤ 5) :
    ¬(',' ∈ (encodePixelToken (u, v)).data) := by
  rw [tok_eq u v hu hv]
  interval_cases u <;> interval_cases v <;> decide

lemma tok_twodec (u v : Nat) (hu : u ≤ 6) (hv : v ≤ 5) :
    isTwoDecimalToken (encodePixelToken (u, v)) = true := by
  rw [tok_eq u v hu hv]
  interval_cases u <;> interval_cases v <;> decide

lemma u8sub_self (a : Fin 256) : u8sub a a = 0 := by
  unfold u8sub
  omega

lemma rgbDistSq_self (c : Color) : rgbDistSq c c = 0 := by
  simp [rgbDistSq, u8sub_self]

lemma u8sub_eq_zero {a b : Fin 256} (h : u8sub a b = 0) : a = b := by
  unfold u8sub at h
  have ha := a.isLt
  have hb := b.isLt
  exact Fin.ext (by omega)

lemma rgbDistSq_eq_zero {p c : Color} (h : rgbDistSq p c = 0) : p = c := by
  unfold rgbDistSq at h
  have h0 : u8sub p.c0 c.c0 ^ 2 = 0 ∧ u8sub p.c1 c.c1 ^ 2 = 0 ∧ u8sub p.c2 c.c2 ^ 2 = 0 := by
    omega
  have e0 : p.c0 = c.c0 := u8sub_eq_zero (by
    have := h0.1
    exact pow_eq_zero_iff (two_ne_zero) |>.mp this)
  have e1 : p.c1 = c.c1 := u8sub_eq_zero (by
    have := h0.2.1
    exact pow_eq_zero_iff (two_ne_zero) |>.mp this)
  have e2 : p.c2 = c.c2 := u8sub_eq_zero (by
    have := h0.2.2
    exact pow_eq_zero_iff (two_ne_zero) |>.mp this)
  cases p
  cases c
  simp only at e0 e1 e2
  rw [e0, e1, e2]

lemma reverseColour_reverseColour (c : Color) : reverseColour (reverseColour c) = c := rfl

lemma rgbq_refl (c : Color) : ((rgbDistSq c c : Nat) : ℚ) = 0 := by
  rw [rgbDistSq_self]
  rfl

lemma rgbq_nonneg (p c : Color) : (0 : ℚ) ≤ ((rgbDistSq p c : Nat) : ℚ) :=
  Nat.cast_nonneg _

lemma rgbq_faithful (a b : Color) (h : ((rgbDistSq a b : Nat) : ℚ) = 0) :
    ∀ p : Color, ((rgbDistSq p a : Nat) : ℚ) = ((rgbDistSq p b : Nat) : ℚ) := by
  intro p
  have hn : rgbDistSq a b = 0 := by exact_mod_cast h
  rw [rgbDistSq_eq_zero hn]

/-! ### Re-quantizing a palette colour returns the same cell -/

lemma scanOrder_bounds : ∀ p ∈ scanOrder, p.1 ≤ 6 ∧ p.2 ≤ 5 := by decide

lemma requant (dist : Color → Color → ℚ)
    (h1 : ∀ c, dist c c = 0) (h2 : ∀ p c, 0 ≤ dist p c)
    (h3 : ∀ a b, dist a b = 0 → ∀ p, dist p a = dist p b)
    (tex : Palette) (prgb : Color) (uv0 : Nat × Nat)
    (huv0 : uv0 = findClosestGeneric (fun p => dist prgb (tex p.2 p.1))) :
    findClosestGeneric (fun p => dist (tex uv0.2 uv0.1) (tex p.2 p.1)) = uv0 := by
  have hfind := findClosest_find? (fun p => dist prgb (tex p.2 p.1))
  rw [← huv0] at hfind
  obtain ⟨pre, post, hsplit, hpre, hr⟩ := find?_eq_some_parts hfind
  have hrP : ∀ q ∈ scanOrder, dist prgb (tex uv0.2 uv0.1) ≤ dist prgb (tex q.2 q.1) :=
    of_decide_eq_true hr
  have hmem : uv0 ∈ scanOrder := by
    rw [hsplit]
    exact List.mem_append_right _ (List.mem_cons_self _ _)
  have hc0 : dist (tex uv0.2 uv0.1) (tex uv0.2 uv0.1) = 0 := h1 _
  have hrC : (fun x => decide (∀ q ∈ scanOrder,
      dist (tex uv0.2 uv0.1) (tex x.2 x.1) ≤ dist (tex uv0.2 uv0.1) (tex q.2 q.1))) uv0
      = true := by
    apply decide_eq_true
    intro q hq
    rw [hc0]
    exact h2 _ _
  have hpreC : ∀ a ∈ pre, (fun x => decide (∀ q ∈ scanOrder,
      dist (tex uv0.2 uv0.1) (tex x.2 x.1) ≤ dist (tex uv0.2 uv0.1) (tex q.2 q.1))) a
      = false := by
    intro a ha
    apply decide_eq_false
    intro hall
    have hmemA : a ∈ scanOrder := by
      rw [hsplit]
      exact List.mem_append_left _ ha
    have hle := hall uv0 hmem
    rw [hc0] at hle
    have hzero : dist (tex uv0.2 uv0.1) (tex a.2 a.1) = 0 := le_antisymm hle (h2 _ _)
    have heqd := h3 _ _ hzero
    have hPa : decide (∀ q ∈ scanOrder, dist prgb (tex a.2 a.1)
        ≤ dist prgb (tex q.2 q.1)) = true := by
      apply decide_eq_true
      intro q hq
      have hax : dist prgb (tex a.2 a.1) = dist prgb (tex uv0.2 uv0.1) := (heqd prgb).symm
      rw [hax]
      exact hrP q hq
    have hfalse := hpre a ha
    rw [hPa] at hfalse
    exact Bool.noConfusion hfalse
  have happ := find?_append_first (p := fun x => decide (∀ q ∈ scanOrder,
      dist (tex uv0.2 uv0.1) (tex x.2 x.1) ≤ dist (tex uv0.2 uv0.1) (tex q.2 q.1)))
    uv0 post pre hpreC hrC
  rw [← hsplit] at happ
  have hfc := findClosest_find? (fun p => dist (tex uv0.2 uv0.1) (tex p.2 p.1))
  rw [happ] at hfc
  exact (Option.some_inj.mp hfc).symm

/-! ### Stream-level helper lemmas -/

lemma tok_commafree_all (uv : Nat × Nat) : ¬(',' ∈ (encodePixelToken uv).data) := by
  have h1 : encodePixelToken uv = encodePixelToken (min uv.1 6, min uv.2 5) :=
    encodePixelToken_clamp uv.1 uv.2
  rw [h1]
  exact tok_commafree _ _ (Nat.min_le_right _ _) (Nat.min_le_right _ _)

lemma tok_isSome_all (uv : Nat × Nat) : (parsePair (encodePixelToken uv)).isSome = true := by
  have h1 : encodePixelToken uv = encodePixelToken (min uv.1 6, min uv.2 5) :=
    encodePixelToken_clamp uv.1 uv.2
  rw [h1]
  exact tok_isSome _ _ (Nat.min_le_right _ _) (Nat.min_le_right _ _)

lemma tok_twodec_all (uv : Nat × Nat) : isTwoDecimalToken (encodePixelToken uv) = true := by
  have h1 : encodePixelToken uv = encodePixelToken (min uv.1 6, min uv.2 5) :=
    encodePixelToken_clamp uv.1 uv.2
  rw [h1]
  exact tok_twodec _ _ (Nat.min_le_right _ _) (Nat.min_le_right _ _)

lemma serializedList_mem (img : Nat → Nat → Color) (tex : Palette)
    (alg : Color → Palette → Nat × Nat) (t : String)
    (ht : t ∈ serializedList img tex alg) : ∃ uv, t = encodePixelToken uv := by
  simp only [serializedList, List.mem_flatMap, List.mem_map] at ht
  obtain ⟨i, _, j, _, rfl⟩ := ht
  exact ⟨alg (img j i) tex, rfl⟩

lemma serializedList_ne_nil (img : Nat → Nat → Color) (tex : Palette)
    (alg : Color → Palette → Nat × Nat) : serializedList img tex alg ≠ [] := by
  intro h
  have := serializedList_length img tex alg
  rw [h] at this
  simp at this

lemma stream_split (img : Nat → Nat → Color) (tex : Palette)
    (alg : Color → Palette → Nat × Nat) :
    pySplit (serialize_image_to_uv img tex alg).1 ',' = serializedList img tex alg := by
  show pySplit (pyJoin ',' (serializedList img tex alg)) ',' = serializedList img tex alg
  apply pySplit_pyJoin ',' _ (serializedList_ne_nil img tex alg)
  intro t ht
  obtain ⟨uv, rfl⟩ := serializedList_mem img tex alg t ht
  exact tok_commafree_all uv

lemma serializedList_getElem_flat (img : Nat → Nat → Color) (tex : Palette)
    (alg : Color → Palette → Nat × Nat) {k : Nat} (hk : k < 6600) :
    (serializedList img tex alg)[k]?
      = some (encodePixelToken (alg (img (65 - k % 66) (k / 66)) tex)) := by
  have h := serializedList_getElem img tex alg (i := k / 66) (j := 65 - k % 66)
    (by omega) (by omega)
  have hidx : k / 66 * 66 + (65 - (65 - k % 66)) = k := by omega
  rw [hidx] at h
  exact h

lemma mkAlg_mem (dist : Color → Color → ℚ) (pixel : Color) (tex : Palette) :
    mkAlg dist pixel tex ∈ scanOrder :=
  List.mem_of_find?_eq_some
    (findClosest_find? (fun p => dist (reverseColour pixel) (tex p.2 p.1)))

lemma mkAlg_bounds (dist : Color → Color → ℚ) (pixel : Color) (tex : Palette) :
    (mkAlg dist pixel tex).1 ≤ 6 ∧ (mkAlg dist pixel tex).2 ≤ 5 :=
  scanOrder_bounds _ (mkAlg_mem dist pixel tex)

lemma goodTok_eq : goodTok = encodePixelToken (0, 0) := by
  rw [tok_eq 0 0 (by omega) (by omega)]
  rfl

lemma goodTok_isSome : (parsePair goodTok).isSome = true := by
  rw [goodTok_eq]
  exact tok_isSome 0 0 (by omega) (by omega)

lemma parsePair_x_none : parsePair "x" = none := rfl

lemma scanGo_no_lt (d : Nat × Nat → ℚ) :
    ∀ (l : List (Nat × Nat)) (b : Nat × Nat) (m : ℚ),
      (∀ p ∈ l, ¬d p < m) → scanGo d l b m = b := by
  intro l
  induction l with
  | nil => intro b m _; rfl
  | cons p t ih =>
    intro b m h
    have hp : ¬d p < m := h p (by simp)
    simp only [scanGo, if_neg hp]
    exact ih b m (fun q hq => h q (List.mem_cons_of_mem _ hq))

lemma find?_unique {α : Type} {p : α → Bool} :
    ∀ {l : List α} {x : α}, x ∈ l → p x = true → (∀ y ∈ l, p y = true → y = x) →
      l.find? p = some x := by
  intro l
  induction l with
  | nil => intro x hx; simp at hx
  | cons a t ih =>
    intro x hx hpx huniq
    by_cases hpa : p a = true
    · have hax : a = x := huniq a (by simp) hpa
      rw [List.find?_cons_of_pos t hpa, hax]
    · rw [List.find?_cons_of_neg t hpa]
      have hxt : x ∈ t := by
        rcases List.mem_cons.mp hx with rfl | hxt
        · exact absurd hpx hpa
        · exact hxt
      exact ih hxt hpx (fun y hy hpy => huniq y (List.mem_cons_of_mem _ hy) hpy)

lemma scanOrder_mem {u v : Nat} (hu : u < 7) (hv : v < 6) : (u, v) ∈ scanOrder := by
  simp only [scanOrder, List.mem_flatMap, List.mem_map, List.mem_range]
  exact ⟨v, hv, u, hu, rfl⟩

lemma flatMap_congr_left {α β : Type} (l : List α) (f f2 : α → List β)
    (h : ∀ a ∈ l, f a = f2 a) : l.flatMap f = l.flatMap f2 := by
  induction l with
  | nil => rfl
  | cons a t ih =>
    simp only [List.flatMap_cons]
    rw [h a (by simp), ih (fun x hx => h x (List.mem_cons_of_mem _ hx))]

lemma decodeLoop_congr (toks toks2 : List String) (tex : Palette) :
    ∀ (ps : List (Nat × Nat)) (num : Nat) (g : Grid),
      (∀ k, num ≤ k → k < num + ps.length →
        ((k < toks.length ↔ k < toks2.length) ∧ (k < toks.length → toks[k]? = toks2[k]?))) →
      decodeLoop toks tex ps num g = decodeLoop toks2 tex ps num g := by
  intro ps
  induction ps with
  | nil => intro num g _; rfl
  | cons hd rest ih =>
    obtain ⟨i0, j0⟩ := hd
    intro num g h
    have hnum := h num (le_refl _) (by simp)
    by_cases hn : num < toks.length
    · have hn2 : num < toks2.length := hnum.1.mp hn
      have heq : toks[num]? = toks2[num]? := hnum.2 hn
      have hval : toks[num] = toks2[num] := by
        rw [List.getElem?_eq_getElem hn, List.getElem?_eq_getElem hn2] at heq
        exact Option.some_inj.mp heq
      simp only [decodeLoop, dif_pos hn, dif_pos hn2, hval]
      cases hp : parsePair toks2[num] with
      | none => rfl
      | some xy =>
        obtain ⟨x, y⟩ := xy
        exact ih (num + 1) _ (fun k hk1 hk2 => h k (by omega) (by simp; omega))
    · have hn2 : ¬num < toks2.length := fun hc => hn (hnum.1.mpr hc)
      simp only [decodeLoop, dif_neg hn, dif_neg hn2]
      exact ih num g (fun k hk1 hk2 => h k (by omega) (by simp; omega))

lemma decodeLoop_shape (toks : List String) (tex : Palette) :
    ∀ (ps : List (Nat × Nat)) (num : Nat) (g g2 : Grid),
      decodeLoop toks tex ps num g = some g2 →
      g2.length = g.length ∧ ∀ j, (g2.getD j []).length = ((g.getD j []) : List Color).length := by
  intro ps
  induction ps with
  | nil =>
    intro num g g2 h
    obtain rfl : g = g2 := Option.some_inj.mp h
    exact ⟨rfl, fun _ => rfl⟩
  | cons hd rest ih =>
    obtain ⟨i0, j0⟩ := hd
    intro num g g2 h
    by_cases hn : num < toks.length
    · simp only [decodeLoop, dif_pos hn] at h
      cases hp : parsePair toks[num] with
      | none => rw [hp] at h; exact Option.noConfusion h
      | some xy =>
        obtain ⟨x, y⟩ := xy
        rw [hp] at h
        obtain ⟨ha, hb⟩ := ih (num + 1) _ g2 h
        refine ⟨by rw [ha, setGrid_length], fun j => by rw [hb j, setGrid_row_length]⟩
    · simp only [decodeLoop, dif_neg hn] at h
      exact ih num g g2 h

/-! ### Claim theorems -/

/-- C2: the spec says the `rgb` metric is the Euclidean distance over the
signed channel differences, and the code's own docstring says the same; but
`np.array(pixel_rgb) - np.array(texture_colour)` subtracts `uint8` arrays,
which wraps modulo 256.  At pixel RGB (0,0,0) against palette colour
(255,255,255) the code's squared distance is 3 (wrapped differences 1,1,1)
while the spec's squared Euclidean distance is 195075 = 3·255²; since the
square root is injective on non-negative reals, the distances differ too. -/
theorem c2_rgb_metric_wraps_uint8 :
    rgbDistSq ⟨0, 0, 0⟩ ⟨255, 255, 255⟩ = 3 ∧
    euclidSqSpec ⟨0, 0, 0⟩ ⟨255, 255, 255⟩ = 195075 ∧
    (3 : Int) ≠ 195075 :=
  ⟨by decide, by decide, by decide⟩

/-- C9 counterexample: encoding is not free of side effects — on every input,
`serialize_image_to_uv` performs a file write (line 49 of src/main.py calls
`save_resized_texture`). -/
theorem c9_encoder_writes_file :
    (serialize_image_to_uv constImg constTex find_closest_colour_rgb).2 ≠ [] := by
  intro h
  exact List.noConfusion h

/-- C9 amended: encoding always performs exactly the file effects of
`save_resized_texture` (one write of `resized_texture.png`); the palette
visualization save is invoked by the Encoder itself, not a separate,
independent operation. -/
theorem c9_encoder_effect_amended (img : Nat → Nat → Color) (tex : Palette)
    (alg : Color → Palette → Nat × Nat) :
    (serialize_image_to_uv img tex alg).2 = save_resized_texture_effects := rfl

/-- C4: every visited pixel's token is
`clamp(u/6,0.01,0.99) ":" clamp(1 - v/5,0.01,0.99)` with the cell index first
clamped into the grid, each coordinate formatted to exactly two decimal
digits; cell (6,5) encodes as "0.99:0.01", cell (0,0) as "0.01:0.99", and a
pure-red pixel against the red/black scenario palette quantizes to cell (0,0)
and encodes as "0.01:0.99". -/
theorem c4_token_format :
    (∀ u v : Nat, encodePixelToken (u, v)
        = fmt2 (clipQ (((min u 6 : Nat) : ℚ) / 6) (1 / 100) (99 / 100))
          ++ ":" ++ fmt2 (clipQ (1 - ((min v 5 : Nat) : ℚ) / 5) (1 / 100) (99 / 100))) ∧
    (∀ u v : Nat, isTwoDecimalToken (encodePixelToken (u, v)) = true) ∧
    encodePixelToken (6, 5) = "0.99:0.01" ∧
    encodePixelToken (0, 0) = "0.01:0.99" ∧
    find_closest_colour_rgb pureRedBGR redBlackTex = (0, 0) ∧
    encodePixelToken (find_closest_colour_rgb pureRedBGR redBlackTex) = "0.01:0.99" := by
  have hred : find_closest_colour_rgb pureRedBGR redBlackTex = (0, 0) := by decide
  refine ⟨fun u v => rfl, fun u v => tok_twodec_all (u, v), ?_, ?_, hred, ?_⟩
  · rw [tok_eq 6 5 (by omega) (by omega)]
    rfl
  · rw [tok_eq 0 0 (by omega) (by omega)]
    rfl
  · rw [hred, tok_eq 0 0 (by omega) (by omega)]
    rfl

/-- C5: for every pixel colour, palette and distance metric, the quantizer's
42-cell scan with strict `<` updates returns the earliest-scanned cell among
those of minimal distance, and returns cell (0,0) when every distance is
equal. -/
theorem c5_quantizer_earliest_min (dist : Color → Color → ℚ) (pixel : Color) (tex : Palette) :
    mkAlg dist pixel tex
      = firstMinimal (fun p => dist (reverseColour pixel) (tex p.2 p.1)) ∧
    ((∀ p ∈ scanOrder, ∀ q ∈ scanOrder,
        dist (reverseColour pixel) (tex p.2 p.1) = dist (reverseColour pixel) (tex q.2 q.1)) →
      mkAlg dist pixel tex = (0, 0)) := by
  constructor
  · exact findClosest_eq_firstMinimal _
  · intro hall
    show findClosestGeneric (fun p => dist (reverseColour pixel) (tex p.2 p.1)) = (0, 0)
    rw [findClosest_eq_go]
    apply scanGo_no_lt
    intro p hp
    have hp2 : p ∈ scanOrder := by
      rw [scanOrder_eq_cons]
      exact List.mem_cons_of_mem _ hp
    have h00 : ((0, 0) : Nat × Nat) ∈ scanOrder := by
      rw [scanOrder_eq_cons]
      exact List.mem_cons_self _ _
    have heq := hall p hp2 (0, 0) h00
    intro hlt
    rw [heq] at hlt
    exact lt_irrefl _ hlt

/-- Witness for C5 at a concrete instance: with the all-black palette every
cell distance is equal, and the quantizer returns cell (0,0). -/
theorem c5_quantizer_earliest_min_witness :
    mkAlg (fun a b => ((rgbDistSq a b : Nat) : ℚ)) blackColour constTex = (0, 0) :=
  (c5_quantizer_earliest_min _ blackColour constTex).2 (fun _ _ _ _ => rfl)

/-- C6 counterexample: with an all-black palette (duplicate cell colours),
quantizing the colour of cell (u=1, v=0) with the `rgb` metric returns the
earlier-scanned duplicate (0,0), not (1,0): the claim fails for palettes with
repeated colours. -/
theorem c6_exactness_counterexample :
    find_closest_colour_rgb (reverseColour (constTex 0 1)) constTex = (0, 0) ∧
    ((0, 0) : Nat × Nat) ≠ (1, 0) :=
  ⟨by decide, by decide⟩

/-- C6 amended: for every palette whose 42 cell colours are pairwise
distinct, quantizing each cell's own colour with the `rgb` metric returns
exactly that cell's index.  (For duplicated colours the earliest-scanned
duplicate wins instead.) -/
theorem c6_exactness_amended (tex : Palette)
    (hdistinct : ∀ u, u < 7 → ∀ v, v < 6 → ∀ u2, u2 < 7 → ∀ v2, v2 < 6 →
      tex v u = tex v2 u2 → u = u2 ∧ v = v2)
    (u v : Nat) (hu : u < 7) (hv : v < 6) :
    find_closest_colour_rgb (reverseColour (tex v u)) tex = (u, v) := by
  show findClosestGeneric
      (fun p => ((rgbDistSq (reverseColour (reverseColour (tex v u))) (tex p.2 p.1) : Nat) : ℚ))
      = (u, v)
  simp only [reverseColour_reverseColour]
  have hfind := findClosest_find?
    (fun p => ((rgbDistSq (tex v u) (tex p.2 p.1) : Nat) : ℚ))
  have hmem : ((u, v) : Nat × Nat) ∈ scanOrder := scanOrder_mem hu hv
  have hself : ((rgbDistSq (tex v u) (tex v u) : Nat) : ℚ) = 0 := rgbq_refl _
  have hpred : decide (∀ q ∈ scanOrder,
      ((rgbDistSq (tex v u) (tex v u) : Nat) : ℚ)
        ≤ ((rgbDistSq (tex v u) (tex q.2 q.1) : Nat) : ℚ)) = true := by
    apply decide_eq_true
    intro q _
    rw [hself]
    exact rgbq_nonneg _ _
  have huniq : ∀ y ∈ scanOrder,
      (fun p => decide (∀ q ∈ scanOrder,
        ((rgbDistSq (tex v u) (tex p.2 p.1) : Nat) : ℚ)
          ≤ ((rgbDistSq (tex v u) (tex q.2 q.1) : Nat) : ℚ))) y = true → y = (u, v) := by
    intro y hy hpy
    have hall := of_decide_eq_true hpy
    have hle := hall (u, v) hmem
    have hley : ((rgbDistSq (tex v u) (tex y.2 y.1) : Nat) : ℚ) ≤ 0 := by
      calc ((rgbDistSq (tex v u) (tex y.2 y.1) : Nat) : ℚ)
          ≤ ((rgbDistSq (tex v u) (tex v u) : Nat) : ℚ) := hle
        _ = 0 := hself
    have hzero : rgbDistSq (tex v u) (tex y.2 y.1) = 0 := by
      have := le_antisymm hley (rgbq_nonneg _ _)
      exact_mod_cast this
    have hcoleq : tex v u = tex y.2 y.1 := rgbDistSq_eq_zero hzero
    obtain ⟨hb1, hb2⟩ := scanOrder_bounds y hy
    obtain ⟨he1, he2⟩ := hdistinct u hu v hv y.1 (by omega) y.2 (by omega) hcoleq
    have : ((y.1, y.2) : Nat × Nat) = (u, v) := by rw [← he1, ← he2]
    exact this
  have hfound := find?_unique hmem hpred huniq
  rw [hfound] at hfind
  exact (Option.some_inj.mp hfind).symm

lemma distinctTex_distinct : ∀ u, u < 7 → ∀ v, v < 6 → ∀ u2, u2 < 7 → ∀ v2, v2 < 6 →
    distinctTex v u = distinctTex v2 u2 → u = u2 ∧ v = v2 := by
  intro u hu v hv u2 hu2 v2 hv2 heq
  have h1 : u % 256 = u2 % 256 := congrArg (fun c => c.c0.val) heq
  have h2 : v % 256 = v2 % 256 := congrArg (fun c => c.c1.val) heq
  exact ⟨by omega, by omega⟩

/-- Witness for C6 at a concrete palette with 42 pairwise-distinct colours:
quantizing cell (2,1)'s colour returns (2,1). -/
theorem c6_exactness_amended_witness :
    find_closest_colour_rgb (reverseColour (distinctTex 1 2)) distinctTex = (2, 1) :=
  c6_exactness_amended distinctTex distinctTex_distinct 2 1 (by omega) (by omega)

/-- C3: the encoder's stream splits on commas into exactly 6600 entries, and
the entry at position `i*66 + (65 - j)` is the token of pixel
`source_image[j, i]` — the order produced by the outer loop `i = 0..99` and
the inner loop `j = 65..0`. -/
theorem c3_stream_order (img : Nat → Nat → Color) (tex : Palette)
    (alg : Color → Palette → Nat × Nat) :
    (pySplit (serialize_image_to_uv img tex alg).1 ',').length = 6600 ∧
    ∀ i j, i < 100 → j < 66 →
      (pySplit (serialize_image_to_uv img tex alg).1 ',')[i * 66 + (65 - j)]?
        = some (encodePixelToken (alg (img j i) tex)) := by
  rw [stream_split img tex alg]
  exact ⟨serializedList_length img tex alg,
    fun i j hi hj => serializedList_getElem img tex alg hi hj⟩

/-- Witness for C3 at a concrete image, palette and algorithm: the first
stream entry is the token of pixel (65, 0). -/
theorem c3_stream_order_witness :
    (pySplit (serialize_image_to_uv constImg constTex find_closest_colour_rgb).1 ','
      )[0 * 66 + (65 - 65)]?
      = some (encodePixelToken (find_closest_colour_rgb (constImg 65 0) constTex)) :=
  (c3_stream_order constImg constTex find_closest_colour_rgb).2 0 65 (by omega) (by omega)

lemma pyFloatQ_1e400 : pyFloatQ "1e400" = some ((10 : ℚ) ^ (400 : ℤ)) := by
  show some ((digitsToNat ['1'] : ℚ) * (10 : ℚ) ^ ((digitsToNat ['4', '0', '0'] : ℤ)))
    = some ((10 : ℚ) ^ (400 : ℤ))
  rw [show digitsToNat ['1'] = 1 from rfl, show digitsToNat ['4', '0', '0'] = 400 from rfl]
  norm_num

lemma parsePair_1e400 : parsePair "1e400:0.99" = some ((10 : ℚ) ^ (400 : ℤ), 99 / 100) := by
  apply parsePair_of _ "1e400" "0.99"
  · decide
  · exact pyFloatQ_1e400
  · exact pyFloatQ_vTok 0 (by omega)

lemma entryColourOv_1e400 (tex : Palette) : entryColourOv tex "1e400:0.99" = none := by
  unfold entryColourOv
  rw [parsePair_1e400]
  show (if dblOverflow ≤ |(10 : ℚ) ^ (400 : ℤ) * 7| then none
    else if dblOverflow ≤ |(1 - 99 / 100) * 6| then none
    else some (decodeColour tex ((10 : ℚ) ^ (400 : ℤ)) (99 / 100))) = none
  rw [if_pos]
  unfold dblOverflow
  rw [show ((400 : ℤ)) = ((400 : ℕ) : ℤ) from rfl, zpow_natCast,
    abs_of_nonneg (by positivity)]
  norm_num

/-- C8 counterexample: the one-entry stream "1e400:0.99" is well formed in
the original claim's sense — it splits into two fields that `float`
parses — and has fewer than 6600 pairs, yet the decoder does not stop
early without error: `float('1e400')` overflows to `inf`, so
`int(x * 7)` on line 96 of src/main.py raises `OverflowError` and no
preview grid is produced. -/
theorem c8_overflow_counterexample :
    pySplit "1e400:0.99" ':' = ["1e400", "0.99"] ∧
    (pyFloatQ "1e400").isSome = true ∧
    (pyFloatQ "0.99").isSome = true ∧
    (pySplit "1e400:0.99" ',').length = 1 ∧
    create_uv_preview_imageOv "1e400:0.99" constTex = none := by
  refine ⟨by decide, ?_, ?_, by decide, ?_⟩
  · rw [pyFloatQ_1e400]
    rfl
  · rw [show "0.99" = vTokStr 0 from rfl, pyFloatQ_vTok 0 (by omega)]
    rfl
  · unfold create_uv_preview_imageOv create_uv_preview_imageC
    rw [decodeLoopC_fail _ _ positionsDec 0 initGrid
      ⟨0, by rw [positionsDec_length]; omega, by decide,
        entryColourOv_1e400 constTex⟩]
    rfl

/-- C8 amended: for every per-entry colour computation (the program's
colon split, `float` conversions and `int` conversions, abstracted as a
function returning `none` when processing the entry raises) and every
stream of fewer than 6600 entries on which every entry's computation
succeeds, the decoder stops early without error: the entries fill their
pixels in order (pixel [j, i] receives the colour of entry
i * 66 + (65 - j)), and every remaining pixel of the 100×66 preview is
left at the default black (0,0,0).  Holding for every instance of the
per-entry computation, this covers the program's `float`/`int` semantics;
the restriction from "parses as two floats" to "converts without error"
is forced by the overflow counterexample. -/
theorem c8_truncated_stream_amended (C : String → Option Color) (s : String)
    (hlen : (pySplit s ',').length < 6600)
    (hok : ∀ t ∈ pySplit s ',', (C t).isSome = true) :
    ∃ g, create_uv_preview_imageC s C = some g ∧
      g.length = 66 ∧ (∀ j, j < 66 → (g.getD j []).length = 100) ∧
      (∀ i j, i < 100 → j < 66 → i * 66 + (65 - j) < (pySplit s ',').length →
        C ((pySplit s ',').getD (i * 66 + (65 - j)) "") = some (gridGet g j i)) ∧
      (∀ i j, i < 100 → j < 66 → (pySplit s ',').length ≤ i * 66 + (65 - j) →
        gridGet g j i = blackColour) := by
  have hokk : ∀ k, k < (pySplit s ',').length → k < 6600 →
      (C ((pySplit s ',').getD k "")).isSome = true := by
    intro k hk _
    have hgd : (pySplit s ',').getD k "" = (pySplit s ',')[k] := by
      rw [List.getD_eq_getElem?_getD, List.getElem?_eq_getElem hk]
      rfl
    rw [hgd]
    exact hok _ (List.getElem_mem hk)
  obtain ⟨g, hg, hglen, hgrow, hpix⟩ := decode_charK s C hokk
  refine ⟨g, hg, hglen, hgrow, ?_, ?_⟩
  · intro i j hi hj hk
    have hsome := hokk _ hk (by omega)
    obtain ⟨c, hc⟩ := Option.isSome_iff_exists.mp hsome
    have hval : gridGet g j i
        = (C ((pySplit s ',').getD (i * 66 + (65 - j)) "")).getD blackColour := by
      rw [hpix i j hi hj, if_pos hk]
    rw [hval, hc]
    rfl
  · intro i j hi hj hk
    rw [hpix i j hi hj, if_neg (by omega)]

/-- Witness for C8 amended: the one-entry stream "0.01:0.99", decoded by
the program's decoder (the rational per-entry instance `entryColour`),
decodes without error, fills pixel (65, 0) with its entry's colour and
leaves every other pixel black. -/
theorem c8_truncated_stream_amended_witness :
    ∃ g, create_uv_preview_image goodTok constTex = some g ∧
      g.length = 66 ∧ (∀ j, j < 66 → (g.getD j []).length = 100) ∧
      (∀ i j, i < 100 → j < 66 → i * 66 + (65 - j) < (pySplit goodTok ',').length →
        entryColour constTex ((pySplit goodTok ',').getD (i * 66 + (65 - j)) "")
          = some (gridGet g j i)) ∧
      (∀ i j, i < 100 → j < 66 → (pySplit goodTok ',').length ≤ i * 66 + (65 - j) →
        gridGet g j i = blackColour) := by
  rw [create_uv_preview_image_eq]
  exact c8_truncated_stream_amended (entryColour constTex) goodTok (by decide) (by
    intro t ht
    have hsp : pySplit goodTok ',' = [goodTok] := rfl
    rw [hsp] at ht
    rcases List.mem_singleton.mp ht with rfl
    rw [entryColour_isSome]
    exact goodTok_isSome)

/-- C10: a stream with more than 6600 pairs decodes to exactly the preview of
its first 6600 pairs (the surplus is never consumed), and any grid the
decoder produces always has exactly 66 rows of 100 pixels. -/
theorem c10_surplus_ignored (s : String) (tex : Palette)
    (hlen : 6600 < (pySplit s ',').length) :
    create_uv_preview_image s tex
      = create_uv_preview_image (pyJoin ',' ((pySplit s ',').take 6600)) tex ∧
    ∀ g, create_uv_preview_image s tex = some g →
      g.length = 66 ∧ ∀ j, j < 66 → (g.getD j []).length = 100 := by
  have htake : pySplit (pyJoin ',' ((pySplit s ',').take 6600)) ','
      = (pySplit s ',').take 6600 := by
    apply pySplit_pyJoin
    · intro hnil
      have h0 := congrArg List.length hnil
      rw [List.length_take] at h0
      simp only [List.length_nil] at h0
      omega
    · intro t ht
      exact pySplit_no_sep s ',' t (List.mem_of_mem_take ht)
  constructor
  · unfold create_uv_preview_image
    rw [htake]
    have hloop := decodeLoop_congr (pySplit s ',') ((pySplit s ',').take 6600) tex
      positionsDec 0 initGrid (by
        intro k hk1 hk2
        rw [positionsDec_length] at hk2
        have hk6 : k < 6600 := by omega
        constructor
        · rw [List.length_take]
          constructor
          · intro _; omega
          · intro _; omega
        · intro _
          rw [List.getElem?_take, if_pos hk6])
    rw [hloop]
  · intro g hg
    unfold create_uv_preview_image at hg
    cases hd : decodeLoop (pySplit s ',') tex positionsDec 0 initGrid with
    | none => rw [hd] at hg; exact Option.noConfusion hg
    | some g0 =>
      rw [hd] at hg
      have hg0 : g = g0.reverse := (Option.some_inj.mp hg).symm
      obtain ⟨hlen0, hrow0⟩ := decodeLoop_shape _ tex positionsDec 0 initGrid g0 hd
      rw [initGrid_length] at hlen0
      subst hg0
      refine ⟨by simpa using hlen0, ?_⟩
      intro j hj
      have hjl : j < g0.length := by omega
      rw [getD_reverse g0 j [] hjl, hrow0 (g0.length - 1 - j), hlen0]
      rw [initGrid_row (66 - 1 - j) (by omega)]
      simp

lemma manyGood_length : manyGood.length = 6601 := List.length_replicate 6601 goodTok

lemma manyGood_split : pySplit (pyJoin ',' manyGood) ',' = manyGood := by
  apply pySplit_pyJoin
  · intro h
    have h0 := congrArg List.length h
    rw [manyGood_length] at h0
    simp at h0
  · intro t ht
    unfold manyGood at ht
    rcases List.eq_of_mem_replicate ht with rfl
    decide

/-- Witness for C10: with 6601 well-formed pairs the decode equals the decode
of the first 6600 pairs. -/
theorem c10_surplus_ignored_witness :
    create_uv_preview_image (pyJoin ',' manyGood) constTex
      = create_uv_preview_image
          (pyJoin ',' ((pySplit (pyJoin ',' manyGood) ',').take 6600)) constTex :=
  (c10_surplus_ignored (pyJoin ',' manyGood) constTex
    (by rw [manyGood_split, manyGood_length]; omega)).1

/-- C7 counterexample: a stream of 6600 well-formed pairs followed by the
unparseable entry "x" contains a malformed entry, yet decodes successfully —
the decoder consumes only the first 6600 entries and never parses the
surplus, so the claim fails for malformed entries beyond position 6600. -/
theorem c7_malformed_beyond_limit_ok :
    "x" ∈ pySplit (pyJoin ',' overflowBad) ',' ∧
    parsePair "x" = none ∧
    create_uv_preview_image (pyJoin ',' overflowBad) constTex ≠ none := by
  have hsplit : pySplit (pyJoin ',' overflowBad) ',' = overflowBad := by
    apply pySplit_pyJoin
    · intro h
      have h0 := congrArg List.length h
      unfold overflowBad at h0
      rw [List.length_append, List.length_replicate] at h0
      simp at h0
    · intro t ht
      unfold overflowBad at ht
      rcases List.mem_append.mp ht with h | h
      · rcases List.eq_of_mem_replicate h with rfl
        decide
      · rcases List.mem_singleton.mp h with rfl
        decide
  refine ⟨?_, parsePair_x_none, ?_⟩
  · rw [hsplit]
    exact List.mem_append_right _ (by simp)
  · unfold create_uv_preview_image
    rw [hsplit]
    rw [decodeLoop_eq_foldFill overflowBad constTex positionsDec 0 initGrid (by
      intro m hm hmlen
      rw [positionsDec_length] at hm
      have h0 : 0 + m = m := by omega
      rw [h0]
      have hget : overflowBad.getD m "" = goodTok := by
        rw [List.getD_eq_getElem?_getD]
        unfold overflowBad
        rw [List.getElem?_append]
        rw [List.length_replicate]
        rw [if_pos (by omega)]
        rw [List.getElem?_replicate, if_pos (by omega)]
        rfl
      rw [hget]
      exact goodTok_isSome)]
    exact fun h => Option.noConfusion h

/-- C7 amended: for every per-entry colour computation (the program's
colon split, `float` conversions and `int` conversions, abstracted as a
function returning `none` when processing the entry raises) and every
stream, if the computation fails on an entry among the first
min(number of entries, 6600) entries — the entries the decoder actually
consumes — the whole decode fails: no preview grid is produced and the
entry is not silently skipped.  Holding for every instance of the
per-entry computation, this covers the program's `float` semantics; a
malformed entry beyond position 6600 is never read (see the
counterexample). -/
theorem c7_malformed_entry_fails (C : String → Option Color) (s : String)
    (hbad : ∃ k, k < (pySplit s ',').length ∧ k < 6600 ∧
      C ((pySplit s ',').getD k "") = none) :
    create_uv_preview_imageC s C = none := by
  obtain ⟨k, hk1, hk2, hfail⟩ := hbad
  unfold create_uv_preview_imageC
  rw [decodeLoopC_fail (pySplit s ',') C positionsDec 0 initGrid
    ⟨k, by rw [positionsDec_length]; omega, by omega, by
      have h0 : 0 + k = k := by omega
      rw [h0]
      exact hfail⟩]
  rfl

/-- Witness for C7 amended: the one-entry stream "x" fails to decode under
the program's decoder (the rational per-entry instance `entryColour`). -/
theorem c7_malformed_entry_fails_witness :
    create_uv_preview_image "x" constTex = none := by
  rw [create_uv_preview_image_eq]
  exact c7_malformed_entry_fails (entryColour constTex) "x" ⟨0, by decide, by omega, rfl⟩

set_option maxHeartbeats 1600000 in
/-- C1: the round-trip law.  For every 100×66 grid, palette and distance
metric (any metric with the family's shared properties: zero self-distance,
non-negativity, and indistinguishability of zero-distance colours — all
seven members satisfy them, and the `rgb` member instantiates them in the
witness), encoding, decoding with the same palette, and re-encoding the
decoded preview yields a stream identical character for character. -/
theorem c1_round_trip (dist : Color → Color → ℚ)
    (h1 : ∀ c, dist c c = 0) (h2 : ∀ p c, 0 ≤ dist p c)
    (h3 : ∀ a b, dist a b = 0 → ∀ p, dist p a = dist p b)
    (img : Nat → Nat → Color) (tex : Palette) :
    (create_uv_preview_image (serialize_image_to_uv img tex (mkAlg dist)).1 tex).map
        (fun g => (serialize_image_to_uv (fun j i => gridGet g j i) tex (mkAlg dist)).1)
      = some (serialize_image_to_uv img tex (mkAlg dist)).1 := by
  have hsplit := stream_split img tex (mkAlg dist)
  have hlen := serializedList_length img tex (mkAlg dist)
  obtain ⟨g, hg, hglen, hgrow, hpix⟩ :=
    decode_char (serialize_image_to_uv img tex (mkAlg dist)).1 tex (by
      intro k hk1 hk2
      rw [hsplit]
      have hgd : (serializedList img tex (mkAlg dist)).getD k ""
          = encodePixelToken (mkAlg dist (img (65 - k % 66) (k / 66)) tex) := by
        rw [List.getD_eq_getElem?_getD, serializedList_getElem_flat img tex (mkAlg dist) hk2]
        rfl
      rw [hgd]
      exact tok_isSome_all _)
  rw [hg]
  have hmap : (some g).map
      (fun g => (serialize_image_to_uv (fun j i => gridGet g j i) tex (mkAlg dist)).1)
      = some ((serialize_image_to_uv (fun j i => gridGet g j i) tex (mkAlg dist)).1) := rfl
  have hreq : ∀ i j, i < 100 → j < 66 →
      mkAlg dist (gridGet g j i) tex = mkAlg dist (img j i) tex := by
    intro i j hi hj
    have hval := hpix i j hi hj
    rw [hsplit] at hval
    rw [if_pos (by rw [hlen]; omega)] at hval
    have hgd : (serializedList img tex (mkAlg dist)).getD (i * 66 + (65 - j)) ""
        = encodePixelToken (mkAlg dist (img j i) tex) := by
      rw [List.getD_eq_getElem?_getD, serializedList_getElem img tex (mkAlg dist) hi hj]
      rfl
    rw [hgd] at hval
    obtain ⟨hb1, hb2⟩ := mkAlg_bounds dist (img j i) tex
    have hcol : colourOfTokD tex (encodePixelToken (mkAlg dist (img j i) tex))
        = reverseColour (tex (mkAlg dist (img j i) tex).2 (mkAlg dist (img j i) tex).1) :=
      tok_colour tex _ _ hb1 hb2
    rw [hcol] at hval
    rw [hval]
    show findClosestGeneric (fun p => dist
        (reverseColour (reverseColour
          (tex (mkAlg dist (img j i) tex).2 (mkAlg dist (img j i) tex).1)))
        (tex p.2 p.1))
      = mkAlg dist (img j i) tex
    simp only [reverseColour_reverseColour]
    exact requant dist h1 h2 h3 tex (reverseColour (img j i)) (mkAlg dist (img j i) tex) rfl
  have hlists : serializedList (fun j i => gridGet g j i) tex (mkAlg dist)
      = serializedList img tex (mkAlg dist) := by
    unfold serializedList
    apply flatMap_congr_left
    intro i hi
    apply List.map_congr_left
    intro j hj
    have hi100 : i < 100 := List.mem_range.mp hi
    have hj66 : j < 66 := List.mem_range.mp (List.mem_reverse.mp hj)
    rw [hreq i j hi100 hj66]
  have hstr : (serialize_image_to_uv (fun j i => gridGet g j i) tex (mkAlg dist)).1
      = (serialize_image_to_uv img tex (mkAlg dist)).1 := by
    show pyJoin ',' (serializedList (fun j i => gridGet g j i) tex (mkAlg dist))
        = pyJoin ',' (serializedList img tex (mkAlg dist))
    rw [hlists]
  rw [hmap, hstr]

/-- Witness for C1 with the `rgb` metric, an all-black image and an all-black
palette. -/
theorem c1_round_trip_witness :
    (create_uv_preview_image
        (serialize_image_to_uv constImg constTex
          (mkAlg (fun a b => ((rgbDistSq a b : Nat) : ℚ)))).1 constTex).map
        (fun g => (serialize_image_to_uv (fun j i => gridGet g j i) constTex
          (mkAlg (fun a b => ((rgbDistSq a b : Nat) : ℚ)))).1)
      = some (serialize_image_to_uv constImg constTex
          (mkAlg (fun a b => ((rgbDistSq a b : Nat) : ℚ)))).1 :=
  c1_round_trip (fun a b => ((rgbDistSq a b : Nat) : ℚ))
    (fun c => rgbq_refl c) (fun p c => rgbq_nonneg p c)
    (fun a b h p => rgbq_faithful a b h p)
    constImg constTex
